import Mathlib

set_option maxRecDepth 100000

/-!
Verification development for the EagleView PDF measurement extractor
(`src/pdf_processor/extractor.py`).

The extractor is a pure function from document text to a measurement
record (or a failure).  We shallowly embed it here:

* regular expressions are embedded as an explicit syntax tree `RE`
  together with a backtracking matcher `mtch` that mirrors Python `re`
  semantics (leftmost search, greedy/lazy repetition priority,
  non-overlapping `finditer`, atomic lookahead);
* Python `float` values are modelled as rationals `ℚ` (every numeric
  literal the extractor handles is an exact small decimal, so no claim
  depends on binary rounding);
* Python exceptions that escape a function are modelled with
  `Except String`, locally-caught exceptions with `Option`;
* each Python method of `PDFMeasurementExtractor` becomes one Lean
  definition of the same name (camel-cased).
-/

namespace EagleView

/-- Python `\s` restricted to the ASCII whitespace characters
(space, tab, newline, carriage return, vertical tab, form feed). -/
def isWs (c : Char) : Bool :=
  c == ' ' || c == '\t' || c == '\n' || c == '\r' || c == '\x0b' || c == '\x0c'

/-- Python `\d` (ASCII digits). -/
def isDigitC (c : Char) : Bool := c.isDigit

/-- Regular-expression syntax tree.  Repetition is only ever applied to
single-character classes in the source patterns, so stars are over
classes; `grp` is a numbered capturing group, `look` a lookahead
`(?=...)`, `eos` is `\Z`. -/
inductive RE where
  | eps
  | cls (p : Char → Bool)
  | cat (a b : RE)
  | alt (a b : RE)
  | starG (p : Char → Bool)
  | starL (p : Char → Bool)
  | opt (a : RE)
  | grp (i : Nat) (a : RE)
  | look (a : RE)
  | eos

/-- Capture environment: group number paired with captured characters;
later bindings are consed on the front (Python keeps the most recent
capture of a group). -/
abbrev Caps := List (Nat × List Char)

/-- Continuation used by the backtracking matcher: remaining input and
captures so far; returns the final captures and the input remaining
after the whole match. -/
abbrev MatchK := List Char → Caps → Option (Caps × List Char)

/-- Greedy star over a character class: consume as many matching
characters as possible, backtracking one at a time. -/
def starGreedy (p : Char → Bool) (k : MatchK) : List Char → Caps → Option (Caps × List Char)
  | [], caps => k [] caps
  | c :: rest, caps =>
    if p c then
      match starGreedy p k rest caps with
      | some r => some r
      | none => k (c :: rest) caps
    else k (c :: rest) caps

/-- Lazy star over a character class: try the continuation first, then
consume one more matching character. -/
def starLazy (p : Char → Bool) (k : MatchK) : List Char → Caps → Option (Caps × List Char)
  | [], caps => k [] caps
  | c :: rest, caps =>
    match k (c :: rest) caps with
    | some r => some r
    | none => if p c then starLazy p k rest caps else none

/-- Backtracking matcher in continuation-passing style, mirroring
Python `re` match-priority semantics.  A capturing group records the
characters it consumed; a lookahead is atomic and consumes nothing. -/
def mtch : RE → List Char → Caps → MatchK → Option (Caps × List Char)
  | .eps, s, caps, k => k s caps
  | .cls _, [], _, _ => none
  | .cls p, c :: rest, caps, k => if p c then k rest caps else none
  | .cat a b, s, caps, k => mtch a s caps (fun s2 c2 => mtch b s2 c2 k)
  | .alt a b, s, caps, k =>
    match mtch a s caps k with
    | some r => some r
    | none => mtch b s caps k
  | .starG p, s, caps, k => starGreedy p k s caps
  | .starL p, s, caps, k => starLazy p k s caps
  | .opt a, s, caps, k =>
    match mtch a s caps k with
    | some r => some r
    | none => k s caps
  | .grp i a, s, caps, k =>
    mtch a s caps (fun s2 c2 => k s2 ((i, s.take (s.length - s2.length)) :: c2))
  | .look a, s, caps, k =>
    match mtch a s caps (fun s2 c2 => some (c2, s2)) with
    | some _ => k s caps
    | none => none
  | .eos, [], caps, k => k [] caps
  | .eos, _ :: _, _, _ => none

/-- Top-level continuation: accept, reporting captures and the rest of
the input. -/
def topK : MatchK := fun rest caps => some (caps, rest)

/-- Try a match at each successive start position (Python `re.search`),
returning the start position, captures and remaining input of the
leftmost match. -/
def searchAux (re : RE) : List Char → Nat → Option (Nat × Caps × List Char)
  | s, pos =>
    match mtch re s [] topK with
    | some (caps, rest) => some (pos, caps, rest)
    | none =>
      match s with
      | [] => none
      | _ :: t => searchAux re t (pos + 1)

/-- One match found in the input: start offset, the matched substring
(Python `group(0)`), the captures, and the input after the match. -/
structure MatchResult where
  start : Nat
  matched : List Char
  caps : Caps
  rest : List Char

/-- Python `pattern.search(s)`. -/
def search (re : RE) (s : List Char) : Option MatchResult :=
  match searchAux re s 0 with
  | none => none
  | some (pos, caps, rest) =>
    some ⟨pos, (s.drop pos).take (s.length - pos - rest.length), caps, rest⟩

/-- Look up a numbered group in the captures (most recent binding
first); `none` models Python's `None` for a group that did not
participate in the match. -/
def grpGet (caps : Caps) (i : Nat) : Option (List Char) :=
  (caps.find? (fun p => p.1 == i)).map (fun p => p.2)

/-- Python `pattern.finditer(s)`: non-overlapping matches left to
right; after a zero-width match the scanner advances one character. -/
def findIterAux (re : RE) : Nat → List Char → List MatchResult
  | 0, _ => []
  | fuel + 1, s =>
    match search re s with
    | none => []
    | some m =>
      m :: (if m.matched.isEmpty then findIterAux re fuel (s.drop (m.start + 1))
            else findIterAux re fuel m.rest)

/-- Python `pattern.finditer(s)` (fuelled by the input length, which
bounds the number of non-overlapping matches). -/
def findIter (re : RE) (s : List Char) : List MatchResult :=
  findIterAux re (s.length + 1) s

/-- Single case-sensitive literal character. -/
def chE (c : Char) : RE := .cls (fun x => x == c)

/-- Single literal character under `re.IGNORECASE`. -/
def chI (c : Char) : RE := .cls (fun x => x.toLower == c.toLower)

/-- Case-sensitive literal string. -/
def lit (s : String) : RE := s.data.foldr (fun c r => .cat (chE c) r) .eps

/-- Literal string under `re.IGNORECASE`. -/
def litI (s : String) : RE := s.data.foldr (fun c r => .cat (chI c) r) .eps

/-- Concatenation of a list of regexes. -/
def cats (l : List RE) : RE := l.foldr .cat .eps

/-- Python `\s*`. -/
def wsS : RE := .starG isWs

/-- Python `\s+`. -/
def wsP : RE := .cat (.cls isWs) (.starG isWs)

/-- Python `\d+`. -/
def digP : RE := .cat (.cls isDigitC) (.starG isDigitC)

/-- Python `.` under `re.DOTALL`. -/
def dotAll : Char → Bool := fun _ => true

/-! ### The compiled patterns of `PDFMeasurementExtractor.__init__`
Each definition is the syntax-tree transcription of the corresponding
`re.compile(...)` line (lines 30-43 of `extractor.py`).  All of the
`self.patterns` entries carry `re.IGNORECASE`; the address pattern
does not. -/

/-- `Total\s+Roof\s+Area\s*=\s*(\d+,?\d*)\s*sq\s*ft`, `re.IGNORECASE`. -/
def totalAreaPat : RE :=
  cats [litI "Total", wsP, litI "Roof", wsP, litI "Area", wsS, chE '=', wsS,
        .grp 1 (cats [digP, .opt (chE ','), .starG isDigitC]),
        wsS, litI "sq", wsS, litI "ft"]

/-- `Predominant\s+Pitch\s*=\s*(\d+/\d+)`, `re.IGNORECASE`. -/
def predominantPitchPat : RE :=
  cats [litI "Predominant", wsP, litI "Pitch", wsS, chE '=', wsS,
        .grp 1 (cats [digP, chE '/', digP])]

/-- `(?:Total\s+)?` prefix shared by most length patterns. -/
def optTotal : RE := .opt (cats [litI "Total", wsP])

/-- `(?:Total\s+)?Ridges\s*=\s*(\d+)\s*ft\s*\(\d+\s*Ridges?\)`, `re.IGNORECASE`. -/
def ridgesPat : RE :=
  cats [optTotal, litI "Ridges", wsS, chE '=', wsS, .grp 1 digP, wsS, litI "ft",
        wsS, chE '(', digP, wsS, litI "Ridge", .opt (chI 's'), chE ')']

/-- `(?:Total\s+)?Valleys\s*=\s*(\d+)\s*ft`, `re.IGNORECASE`. -/
def valleysPat : RE :=
  cats [optTotal, litI "Valleys", wsS, chE '=', wsS, .grp 1 digP, wsS, litI "ft"]

/-- `(?:Total\s+)?Eaves(?:/Starter)?[‡†]?\s*=\s*(\d+)\s*ft`, `re.IGNORECASE`. -/
def eavesPat : RE :=
  cats [optTotal, litI "Eaves", .opt (litI "/Starter"),
        .opt (.cls (fun c => c == '‡' || c == '†')),
        wsS, chE '=', wsS, .grp 1 digP, wsS, litI "ft"]

/-- `(?:Total\s+)?Rakes[†]?\s*=\s*(\d+)\s*ft`, `re.IGNORECASE`. -/
def rakesPat : RE :=
  cats [optTotal, litI "Rakes", .opt (chE '†'), wsS, chE '=', wsS,
        .grp 1 digP, wsS, litI "ft"]

/-- `(?:Total\s+)?Hips\s*=\s*(\d+)\s*ft\s*\(\d+\s*Hips?\)\.?`, `re.IGNORECASE`. -/
def hipsPat : RE :=
  cats [optTotal, litI "Hips", wsS, chE '=', wsS, .grp 1 digP, wsS, litI "ft",
        wsS, chE '(', digP, wsS, litI "Hip", .opt (chI 's'), chE ')', .opt (chE '.')]

/-- `(?:Total\s+)?Flashing\s*=\s*(\d+)\s*ft`, `re.IGNORECASE`. -/
def flashingPat : RE :=
  cats [optTotal, litI "Flashing", wsS, chE '=', wsS, .grp 1 digP, wsS, litI "ft"]

/-- `(?:Total\s+)?Step\s+flashing\s*=\s*(\d+)\s*ft`, `re.IGNORECASE`. -/
def stepFlashingPat : RE :=
  cats [optTotal, litI "Step", wsP, litI "flashing", wsS, chE '=', wsS,
        .grp 1 digP, wsS, litI "ft"]

/-- `Total\s+Penetrations\s+Area\s*=\s*(\d+)\s*sq\s*ft`, `re.IGNORECASE`. -/
def penetrationsAreaPat : RE :=
  cats [litI "Total", wsP, litI "Penetrations", wsP, litI "Area", wsS, chE '=',
        wsS, .grp 1 digP, wsS, litI "sq", wsS, litI "ft"]

/-- `Total\s+Penetrations\s+Perimeter\s*=\s*(\d+)\s*ft`, `re.IGNORECASE`. -/
def penetrationsPerimeterPat : RE :=
  cats [litI "Total", wsP, litI "Penetrations", wsP, litI "Perimeter", wsS,
        chE '=', wsS, .grp 1 digP, wsS, litI "ft"]

/-- `([^,]+),\s*([^,]+),\s*([A-Z]{2})\s+(\d{5}(?:-\d{4})?)` (case-sensitive). -/
def addressPat : RE :=
  cats [.grp 1 (.cat (.cls (fun c => !(c == ','))) (.starG (fun c => !(c == ',')))),
        chE ',', wsS,
        .grp 2 (.cat (.cls (fun c => !(c == ','))) (.starG (fun c => !(c == ',')))),
        chE ',', wsS,
        .grp 3 (cats [.cls (fun c => 'A' ≤ c && c ≤ 'Z'), .cls (fun c => 'A' ≤ c && c ≤ 'Z')]),
        wsP,
        .grp 4 (cats [.cls isDigitC, .cls isDigitC, .cls isDigitC, .cls isDigitC, .cls isDigitC,
                      .opt (cats [chE '-', .cls isDigitC, .cls isDigitC, .cls isDigitC, .cls isDigitC])])]

/-- `Areas\s+per\s+Pitch.*?\n(.*?)(?=\n\s*\n|\Z)`, `re.DOTALL | re.IGNORECASE`
(line 126 of `extractor.py`). -/
def areasSectionPat : RE :=
  cats [litI "Areas", wsP, litI "per", wsP, litI "Pitch", .starL dotAll, chE '\n',
        .grp 1 (.starL dotAll),
        .look (.alt (cats [chE '\n', wsS, chE '\n']) .eos)]

/-- `Waste\s+Calculation.*?(?=Additional|\Z)`, `re.DOTALL | re.IGNORECASE`
(line 210 of `extractor.py`). -/
def wasteSectionPat : RE :=
  cats [litI "Waste", wsP, litI "Calculation", .starL dotAll,
        .look (.alt (litI "Additional") .eos)]

/-- `(\d+)%` (no flags; line 220). -/
def wastePctPat : RE := cats [.grp 1 digP, chE '%']

/-- `Area\s*\(Sq\s*ft\)\s*(\d+(?:,\d*)?)` (no flags; line 222). -/
def wasteAreaPat : RE :=
  cats [lit "Area", wsS, chE '(', lit "Sq", wsS, lit "ft", chE ')', wsS,
        .grp 1 (cats [digP, .opt (cats [chE ',', .starG isDigitC])])]

/-- `Squares\s*\*\s*(\d+\.\d+)` (no flags; line 224). -/
def wasteSquaresPat : RE :=
  cats [lit "Squares", wsS, chE '*', wsS, .grp 1 (cats [digP, chE '.', digP])]

/-! ### Python value primitives -/

/-- Python `str.strip()` restricted to the ASCII whitespace set. -/
def pyStrip (l : List Char) : List Char :=
  ((l.dropWhile isWs).reverse.dropWhile isWs).reverse

/-- Value of a digit string read in base 10, as a natural number. -/
def digitsValN (ds : List Char) : Nat :=
  ds.foldl (fun a c => a * 10 + (c.toNat - '0'.toNat)) 0

/-- Value of a digit string read in base 10. -/
def digitsVal (ds : List Char) : ℚ := (digitsValN ds : Nat)

/-- Value of a fraction-part digit string. -/
def fracVal (ds : List Char) : ℚ := digitsVal ds / (10 ^ ds.length)

/-- Python `float(s)` on the plain decimal forms the extractor can
meet: optional surrounding whitespace, optional sign, then
`digits`, `digits.digits`, `digits.` or `.digits`.  Exponent,
infinity/NaN and underscore forms are treated as unparseable; none of
the extractor's tokens takes those shapes.  The value is the exact
decimal the token denotes. -/
def pyFloat (l : List Char) : Option ℚ :=
  let t := pyStrip l
  let neg := t.head? = some '-'
  let t2 := if neg || t.head? = some '+' then t.tail else t
  let ip := t2.takeWhile isDigitC
  let rest := t2.dropWhile isDigitC
  match rest with
  | [] =>
    if ip.isEmpty then none
    else some (if neg then -(digitsVal ip) else digitsVal ip)
  | '.' :: fr =>
    let fp := fr.takeWhile isDigitC
    let rest2 := fr.dropWhile isDigitC
    if rest2.isEmpty && !(ip.isEmpty && fp.isEmpty) then
      some (if neg then -(digitsVal ip + fracVal fp) else digitsVal ip + fracVal fp)
    else none
  | _ => none

/-- Python `int(s)` on an optionally signed digit string. -/
def pyInt (l : List Char) : Except String Int :=
  let t := pyStrip l
  let neg := t.head? = some '-'
  let t2 := if neg || t.head? = some '+' then t.tail else t
  if t2 ≠ [] && t2.all isDigitC then
    let n : Int := (digitsValN t2 : Nat)
    .ok (if neg then -n else n)
  else .error ("invalid literal for int with base 10: " ++ String.mk l)

/-- `PDFMeasurementExtractor._clean_value` (lines 45-51): strip commas
and spaces, parse as float; a failure raises `ValueError`. -/
def cleanValue (v : List Char) : Except String ℚ :=
  match pyFloat (v.filter (fun c => !(c == ',' || c == ' '))) with
  | some q => .ok q
  | none => .error ("Invalid numeric value: " ++ String.mk v)

/-! ### Data model -/

/-- Decidable equality for `Except`, used to evaluate the embedded
extractor on concrete documents inside proofs. -/
instance instDecEqExcept {e a : Type} [DecidableEq e] [DecidableEq a] :
    DecidableEq (Except e a) := fun x y =>
  match x, y with
  | .error b, .error c =>
    if h : b = c then .isTrue (by rw [h]) else .isFalse (by intro hc; cases hc; exact h rfl)
  | .ok b, .ok c =>
    if h : b = c then .isTrue (by rw [h]) else .isFalse (by intro hc; cases hc; exact h rfl)
  | .error _, .ok _ => .isFalse (by intro hc; cases hc)
  | .ok _, .error _ => .isFalse (by intro hc; cases hc)

/-- A raw measurement value: a float for scalar measurements, the
literal `rise/run` string for `predominant_pitch`. -/
inductive MValue where
  | num (q : ℚ)
  | str (s : List Char)
deriving DecidableEq, Repr

/-- One raw match produced by `_find_all_measurements` (lines 79-90):
the cleaned value, the optional embedded count of group 2, and the page
number.  The unused byte offsets are not modelled. -/
structure MatchRec where
  value : MValue
  count : Option Int := none
  page : Nat
deriving DecidableEq, Repr

/-- Result of `_consolidate_measurements` (lines 115-119). -/
structure Consolidated where
  value : MValue
  count : Option Int
  page : Nat
deriving DecidableEq, Repr

/-- One row of the areas-per-pitch table. -/
structure PitchData where
  area : ℚ
  percentage : ℚ
deriving DecidableEq, Repr

/-- The suggested-waste row (lines 245-249). -/
structure WasteData where
  percentage : ℚ
  area : ℚ
  squares : ℚ
deriving DecidableEq, Repr

/-- The four stripped capture groups of the address pattern
(lines 264-269). -/
structure AddressInfo where
  street_address : List Char
  city : List Char
  state : List Char
  zip_code : List Char
deriving DecidableEq, Repr

/-- `RoofingMeasurement.to_dict()` for the waste measurements stored by
`process_pdf` (lines 339-347): a value and a unit (the count is always
absent there). -/
structure RoofMeasurement where
  value : ℚ
  unit : String
deriving DecidableEq, Repr

/-- The fixed-key inner `measurements` dict of `process_pdf`
(lines 276-289).  Note the code stores only `consolidated['value']`
(line 323) — a bare number, not a value-with-unit — and the pitch
string for `predominant_pitch` (line 318). -/
structure Measurements where
  total_area : Option MValue := none
  predominant_pitch : Option MValue := none
  ridges : Option MValue := none
  valleys : Option MValue := none
  eaves : Option MValue := none
  rakes : Option MValue := none
  hips : Option MValue := none
  flashing : Option MValue := none
  step_flashing : Option MValue := none
  penetrations_area : Option MValue := none
  penetrations_perimeter : Option MValue := none
deriving DecidableEq, Repr

/-- The record returned by `process_pdf` (lines 276-366): the inner
measurements dict, the renamed areas-per-pitch entries, the optional
address fields (all four present or all four absent, lines 299-305)
and the three optional suggested-waste measurements. -/
structure PdfRecord where
  measurements : Measurements
  areas_per_pitch : List (String × PitchData)
  street_address : Option (List Char) := none
  city : Option (List Char) := none
  state : Option (List Char) := none
  zip_code : Option (List Char) := none
  suggested_waste_percentage : Option RoofMeasurement := none
  suggested_waste_area : Option RoofMeasurement := none
  suggested_waste_squares : Option RoofMeasurement := none
deriving DecidableEq, Repr

/-- The extractor object built by `__init__`/`create_extractor`: its
pattern table and address pattern.  Threading it through the
operations and returning it makes any mutation of the object by a call
visible in the embedding. -/
structure Extractor where
  patterns : List (String × RE)
  address_pattern : RE

/-- `create_extractor` / `PDFMeasurementExtractor.__init__`
(lines 27-43, 427-429): the pattern table in dict insertion order. -/
def createExtractor : Extractor :=
  { patterns :=
      [("total_area", totalAreaPat),
       ("predominant_pitch", predominantPitchPat),
       ("ridges", ridgesPat),
       ("valleys", valleysPat),
       ("eaves", eavesPat),
       ("rakes", rakesPat),
       ("hips", hipsPat),
       ("flashing", flashingPat),
       ("step_flashing", stepFlashingPat),
       ("penetrations_area", penetrationsAreaPat),
       ("penetrations_perimeter", penetrationsPerimeterPat)],
    address_pattern := addressPat }

/-! ### `_find_all_measurements` (lines 71-91) -/

/-- Number of capturing groups of a pattern (Python
`len(match.groups())`, a static property of the pattern). -/
def numGroups : RE → Nat
  | .grp _ a => 1 + numGroups a
  | .cat a b => numGroups a + numGroups b
  | .alt a b => numGroups a + numGroups b
  | .opt a => numGroups a
  | .look a => numGroups a
  | _ => 0

/-- Loop body of `_find_all_measurements`: walk the matches in order;
an empty (or absent) group-1 capture is skipped (line 76); the value
is kept as a string for `predominant_pitch` and cleaned otherwise
(line 80, where a `ValueError` escapes the whole loop); a non-empty
group-2 capture becomes the embedded count (lines 87-88). -/
def buildMeasurements (measureType : Option String) (page : Nat) (ng : Nat) :
    List MatchResult → Except String (List MatchRec)
  | [] => .ok []
  | m :: rest =>
    let v := (grpGet m.caps 1).getD []
    if v.isEmpty then
      buildMeasurements measureType page ng rest
    else
      let valueE : Except String MValue :=
        if measureType == some "predominant_pitch" then .ok (MValue.str v)
        else
          match cleanValue v with
          | .ok q => .ok (MValue.num q)
          | .error e => .error e
      match valueE with
      | .error e => .error e
      | .ok value =>
        let cntE : Except String (Option Int) :=
          if ng > 1 then
            match grpGet m.caps 2 with
            | some g =>
              if g.isEmpty then .ok none
              else
                match pyInt g with
                | .ok n => .ok (some n)
                | .error e => .error e
            | none => .ok none
          else .ok none
        match cntE with
        | .error e => .error e
        | .ok cnt =>
          match buildMeasurements measureType page ng rest with
          | .error e => .error e
          | .ok tail => .ok ({ value := value, count := cnt, page := page } :: tail)

/-- `_find_all_measurements(pattern, text, page_num, measure_type)`. -/
def findAllMeasurements (re : RE) (text : List Char) (page : Nat)
    (measureType : Option String) : Except String (List MatchRec) :=
  buildMeasurements measureType page (numGroups re) (findIter re text)

/-! ### `_consolidate_measurements` (lines 93-119) -/

/-- Python `sum(...)` over the match values, starting from the int 0:
adding a string raises `TypeError`. -/
def sumValues : List MValue → Except String ℚ
  | [] => .ok 0
  | .num q :: rest =>
    match sumValues rest with
    | .ok r => .ok (q + r)
    | .error e => .error e
  | .str _ :: _ => .error "TypeError: unsupported operand type(s) for +: 'int' and 'str'"

/-- `_consolidate_measurements(found_measurements)`.  `found = []`
returns `None`; one distinct value is used as-is, otherwise all values
are summed (line 106).  `max_count` is the maximum over the per-match
counts with missing counts defaulting to 0 (line 109; `default=None`
only applies to an empty sequence, so it is `0`, never `None`, when no
match carries a count — which makes the line-112 fallback to the
distinct-value count unreachable).  A zero `max_count` is falsy and
stored as `None` (line 117). -/
def consolidateMeasurements (found : List MatchRec) : Except String (Option Consolidated) :=
  match found with
  | [] => .ok none
  | first :: others =>
    let uniqueValues := ((first :: others).map (fun m => m.value)).dedup
    let totalValueE : Except String MValue :=
      if uniqueValues.length == 1 then .ok first.value
      else
        match sumValues ((first :: others).map (fun m => m.value)) with
        | .ok s => .ok (MValue.num s)
        | .error e => .error e
    match totalValueE with
    | .error e => .error e
    | .ok totalValue =>
      let maxCount : Option Int :=
        some ((others.map (fun m => m.count.getD 0)).foldl max (first.count.getD 0))
      let maxCount :=
        if maxCount = none ∧ (first :: others).length > 1 then
          some (uniqueValues.length : Int)
        else maxCount
      .ok (some
        { value := totalValue,
          count := match maxCount with
                   | some c => if c = 0 then none else some c
                   | none => none,
          page := first.page })

/-! ### `_parse_areas_per_pitch` (lines 121-205)

The `blocks` argument of the Python method is never used; the parser
works on the text alone. -/

/-- Python `'needle' in hay` on character lists. -/
def startsWithL : List Char → List Char → Bool
  | [], _ => true
  | _ :: _, [] => false
  | a :: as2, b :: bs => a == b && startsWithL as2 bs

/-- Python substring containment `needle in hay`. -/
def containsSub (needle : List Char) : List Char → Bool
  | [] => startsWithL needle []
  | c :: rest => startsWithL needle (c :: rest) || containsSub needle rest

/-- Python `text.split('\n')`: the empty string splits to one empty
piece, and separators at either end produce empty pieces. -/
def splitNl : List Char → List (List Char)
  | [] => [[]]
  | c :: rest =>
    if c = '\n' then [] :: splitNl rest
    else
      match splitNl rest with
      | [] => [[c]]
      | l :: ls => (c :: l) :: ls

/-- Python `str.rstrip('%')`: drop every trailing `%`. -/
def rstripPct (l : List Char) : List Char :=
  (l.reverse.dropWhile (fun c => c == '%')).reverse

/-- Line classifier of `_parse_areas_per_pitch` (lines 142-166): pitch
lines first (`'/' in line` and digits once `/` and spaces are removed),
then percentage lines (ending in `%`), every other line is tried as an
area; unparseable lines are skipped.  Returns the three ordered
sequences `(pitches, areas, percentages)`. -/
def classifyPitchLines : List (List Char) → (List (List Char) × List ℚ × List ℚ)
  | [] => ([], [], [])
  | line :: rest =>
    let (ps, qs) := classifyPitchLines rest
    let t := line.filter (fun c => !(c == '/' || c == ' '))
    if line.any (fun c => c == '/') && (!t.isEmpty && t.all isDigitC) then
      (pyStrip line :: ps, qs)
    else if line.getLast? == some '%' then
      match pyFloat (pyStrip (rstripPct line)) with
      | some q => (ps, qs.1, q :: qs.2)
      | none => (ps, qs)
    else
      match pyFloat (pyStrip (line.filter (fun c => !(c == ',')))) with
      | some a => (ps, a :: qs.1, qs.2)
      | none => (ps, qs)

/-- Python dict assignment `d[k] = v` on an association list: replace
in place if the key is present, else append. -/
def upsertPitch (k : List Char) (v : PitchData) :
    List (List Char × PitchData) → List (List Char × PitchData)
  | [] => [(k, v)]
  | (k2, v2) :: rest =>
    if k == k2 then (k, v) :: rest else (k2, v2) :: upsertPitch k v rest

/-- `range(0, n, 3)`. -/
def range3 (n : Nat) : List Nat :=
  (List.range n).filter (fun i => i % 3 == 0)

/-- Grouping loop of `_parse_areas_per_pitch` (lines 171-191): walk
`range(0, min(len(pitches), len(areas), len(percentages)), 3)`; a group
is accepted only when all three 3-element slices are complete and its
percentages sum to within 1 of 100, in which case its three rows are
assigned into the dict. -/
def groupPitchTriples (pitches : List (List Char)) (areas percentages : List ℚ) :
    List (List Char × PitchData) :=
  let n := min pitches.length (min areas.length percentages.length)
  (range3 n).foldl
    (fun d i =>
      let gp := (pitches.drop i).take 3
      let ga := (areas.drop i).take 3
      let gq := (percentages.drop i).take 3
      if gp.length == 3 && ga.length == 3 && gq.length == 3 &&
         decide (|gq.sum - 100| < 1) then
        (gp.zip (ga.zip gq)).foldl
          (fun d2 pq => upsertPitch pq.1 ⟨pq.2.1, pq.2.2⟩ d2) d
      else d)
    []

/-- `_parse_areas_per_pitch(text, blocks)`: find the section, split its
group-1 capture into stripped non-empty lines, classify, then group in
validated triples.  The trailing percentage-sum check (lines 196-202)
only logs and is not modelled. -/
def parseAreasPerPitch (text : List Char) : List (List Char × PitchData) :=
  match search areasSectionPat text with
  | none => []
  | some m =>
    match grpGet m.caps 1 with
    | none => []
    | some sectionText =>
      let lines := ((splitNl sectionText).map pyStrip).filter (fun l => !l.isEmpty)
      let (pitches, rest) := classifyPitchLines lines
      groupPitchTriples pitches rest.1 rest.2

/-! ### `_parse_suggested_waste` (lines 207-258) -/

/-- The group-1 strings of all `(\d+)%` matches in the waste section
(Python `re.findall`, line 220). -/
def wastePercentages (wasteText : List Char) : List (List Char) :=
  (findIter wastePctPat wasteText).filterMap (fun r => grpGet r.caps 1)

/-- The group-1 strings of all `Area (Sq ft) <n>` matches (line 222). -/
def wasteAreas (wasteText : List Char) : List (List Char) :=
  (findIter wasteAreaPat wasteText).filterMap (fun r => grpGet r.caps 1)

/-- The group-1 strings of all `Squares * <d.d>` matches (line 224). -/
def wasteSquares (wasteText : List Char) : List (List Char) :=
  (findIter wasteSquaresPat wasteText).filterMap (fun r => grpGet r.caps 1)

/-- Index search of lines 231-237: find the first line containing
`Suggested` (case-sensitive) and return the number of earlier lines
that are non-empty after stripping and contain at least one digit. -/
def suggestedIndexAux : List (List Char) → Nat → Option Nat
  | [], _ => none
  | l :: rest, acc =>
    if containsSub "Suggested".data l then some acc
    else
      suggestedIndexAux rest
        (acc + (if !(pyStrip l).isEmpty && l.any isDigitC then 1 else 0))

/-- The suggested-row index of the waste table. -/
def suggestedIndex (lines : List (List Char)) : Option Nat :=
  suggestedIndexAux lines 0

/-- Body of `_parse_suggested_waste` applied to the matched waste
section text (`group(0)` of the section pattern): collect the three
value sequences, locate the suggested index, and read the three values
at that index; an out-of-range index or an unparseable value yields
`None` (the `ValueError`/`IndexError` handler of lines 252-254). -/
def parseWasteSection (wasteText : List Char) : Option WasteData :=
  let percentages := wastePercentages wasteText
  let areas := wasteAreas wasteText
  let squares := wasteSquares wasteText
  match suggestedIndex (splitNl wasteText) with
  | none => none
  | some idx =>
    if idx < percentages.length then
      match percentages[idx]? with
      | none => none
      | some ptok =>
        match pyFloat ptok with
        | none => none
        | some p =>
          match areas[idx]? with
          | none => none
          | some atok =>
            match pyFloat (atok.filter (fun c => !(c == ','))) with
            | none => none
            | some a =>
              match squares[idx]? with
              | none => none
              | some stok =>
                match pyFloat stok with
                | none => none
                | some sq => some ⟨p, a, sq⟩
    else none

/-- `_parse_suggested_waste(text)`: absent waste-calculation section
yields `None`. -/
def parseSuggestedWaste (text : List Char) : Option WasteData :=
  match search wasteSectionPat text with
  | none => none
  | some m => parseWasteSection m.matched

/-! ### `_extract_address` (lines 260-270) -/

/-- `_extract_address(text)` with a given address pattern: on a match
return the four stripped groups, otherwise the empty dict (`none`). -/
def extractAddressWith (pat : RE) (text : List Char) : Option AddressInfo :=
  match search pat text with
  | none => none
  | some m =>
    some { street_address := pyStrip ((grpGet m.caps 1).getD []),
           city := pyStrip ((grpGet m.caps 2).getD []),
           state := pyStrip ((grpGet m.caps 3).getD []),
           zip_code := pyStrip ((grpGet m.caps 4).getD []) }

/-! ### `process_pdf` (lines 272-370)

The PDF-to-text decomposition (`fitz` and `extract_text`, lines
59-69 and 293-294) is the out-of-scope external reader; its output —
the concatenated document text — is the input here.  The `blocks`
stream is only ever passed to `_parse_areas_per_pitch`, which ignores
it. -/

/-- The initial fixed-key measurements dict (lines 276-289). -/
def initMeasurements : Measurements := {}

/-- Keyed assignment into the fixed-key measurements dict. -/
def setMeasurement (m : Measurements) (key : String) (v : MValue) : Measurements :=
  if key = "total_area" then { m with total_area := some v }
  else if key = "predominant_pitch" then { m with predominant_pitch := some v }
  else if key = "ridges" then { m with ridges := some v }
  else if key = "valleys" then { m with valleys := some v }
  else if key = "eaves" then { m with eaves := some v }
  else if key = "rakes" then { m with rakes := some v }
  else if key = "hips" then { m with hips := some v }
  else if key = "flashing" then { m with flashing := some v }
  else if key = "step_flashing" then { m with step_flashing := some v }
  else if key = "penetrations_area" then { m with penetrations_area := some v }
  else if key = "penetrations_perimeter" then { m with penetrations_perimeter := some v }
  else m

/-- One iteration of the scalar-extraction loop (lines 308-323): find
all matches of one pattern; keep the first match's literal string for
`predominant_pitch`, otherwise consolidate and store the bare
consolidated value.  The `unit` computed on line 322 is never attached
to the stored value. -/
def applyPattern (m : Measurements) (entry : String × RE) (text : List Char) :
    Except String Measurements :=
  match findAllMeasurements entry.2 text 1 (some entry.1) with
  | .error e => .error e
  | .ok [] => .ok m
  | .ok (first :: others) =>
    if entry.1 = "predominant_pitch" then
      .ok (setMeasurement m entry.1 first.value)
    else
      match consolidateMeasurements (first :: others) with
      | .error e => .error e
      | .ok (some c) => .ok (setMeasurement m entry.1 c.value)
      | .ok none => .ok m

/-- The scalar-extraction loop over the pattern table in order. -/
def runPatterns (pats : List (String × RE)) (text : List Char) (m0 : Measurements) :
    Except String Measurements :=
  match pats with
  | [] => .ok m0
  | e :: rest =>
    match applyPattern m0 e text with
    | .error er => .error er
    | .ok m1 => runPatterns rest text m1

/-- Key renaming of lines 329-331:
`area_pitch_<pitch with / replaced by _>`. -/
def renamePitchKey (p : List Char) : String :=
  String.mk ("area_pitch_".data ++ p.map (fun c => if c == '/' then '_' else c))

/-- `process_pdf(pdf_content)` on the extracted document text.  The
method mutates nothing on the extractor object, which is returned
unchanged; the result is the assembled record, or the `ValueError` of
line 354 when `total_area` is absent after scalar extraction, or a
`ValueError` escaping `_clean_value`. -/
def processPdf (ex : Extractor) (text : List Char) :
    Except String PdfRecord × Extractor :=
  let addressInfo := extractAddressWith ex.address_pattern text
  let res : Except String PdfRecord :=
    match runPatterns ex.patterns text initMeasurements with
    | .error e => .error e
    | .ok m1 =>
    let areas := (parseAreasPerPitch text).map (fun pd => (renamePitchKey pd.1, pd.2))
    let waste := parseSuggestedWaste text
    match m1.total_area with
    | none => Except.error "Total Roof Area measurement is required but not found"
    | some _ =>
      Except.ok
        { measurements := m1,
          areas_per_pitch := areas,
          street_address := addressInfo.map (fun a => a.street_address),
          city := addressInfo.map (fun a => a.city),
          state := addressInfo.map (fun a => a.state),
          zip_code := addressInfo.map (fun a => a.zip_code),
          suggested_waste_percentage := waste.map (fun w => ⟨w.percentage, "percent"⟩),
          suggested_waste_area := waste.map (fun w => ⟨w.area, "sq_ft"⟩),
          suggested_waste_squares := waste.map (fun w => ⟨w.squares, "squares"⟩) }
  (res, ex)

/-! ### `extract_measurements_from_bytes` (lines 372-425) -/

/-- A value of the flat measurements dict built by
`extract_measurements_from_bytes`: either a consolidated measurement
(lines 397-402) or a stripped address string (lines 408-413). -/
inductive MEntry where
  | meas (c : Consolidated)
  | addr (s : List Char)
deriving DecidableEq, Repr

/-- Python dict assignment for the flat measurements dict. -/
def upsertEntry (k : String) (v : MEntry) :
    List (String × MEntry) → List (String × MEntry)
  | [] => [(k, v)]
  | (k2, v2) :: rest =>
    if k == k2 then (k, v) :: rest else (k2, v2) :: upsertEntry k v rest

/-- Dict lookup in the flat measurements dict. -/
def lookupEntry (k : String) (l : List (String × MEntry)) : Option MEntry :=
  (l.find? (fun p => p.1 == k)).map (fun p => p.2)

/-- The pattern loop of `extract_measurements_from_bytes`
(lines 397-402): every pattern — `predominant_pitch` included — is
consolidated; a measurement with matches stores the whole consolidated
result. -/
def runPatternsBytes (pats : List (String × RE)) (text : List Char)
    (acc : List (String × MEntry)) : Except String (List (String × MEntry)) :=
  match pats with
  | [] => .ok acc
  | e :: rest =>
    match findAllMeasurements e.2 text 1 (some e.1) with
    | .error er => .error er
    | .ok [] => runPatternsBytes rest text acc
    | .ok (first :: others) =>
      match consolidateMeasurements (first :: others) with
      | .error er => .error er
      | .ok (some c2) => runPatternsBytes rest text (upsertEntry e.1 (MEntry.meas c2) acc)
      | .ok none => runPatternsBytes rest text acc

/-- `extract_measurements_from_bytes(pdf_bytes)` on the extracted
document text: the flat measurements dict (with the four address
strings appended when the address pattern matches) together with the
areas-per-pitch table.  There is no required-field validation and no
waste extraction here.  The extractor object is returned unchanged. -/
def extractMeasurementsFromBytes (ex : Extractor) (text : List Char) :
    Except String (List (String × MEntry) × List (List Char × PitchData)) × Extractor :=
  let res : Except String (List (String × MEntry) × List (List Char × PitchData)) :=
    match runPatternsBytes ex.patterns text [] with
    | .error e => .error e
    | .ok ms =>
      let areas := parseAreasPerPitch text
      let ms2 :=
        match search ex.address_pattern text with
        | none => ms
        | some m =>
          upsertEntry "zip_code" (MEntry.addr (pyStrip ((grpGet m.caps 4).getD [])))
            (upsertEntry "state" (MEntry.addr (pyStrip ((grpGet m.caps 3).getD [])))
              (upsertEntry "city" (MEntry.addr (pyStrip ((grpGet m.caps 2).getD [])))
                (upsertEntry "street_address" (MEntry.addr (pyStrip ((grpGet m.caps 1).getD []))) ms)))
      .ok (ms2, areas)
  (res, ex)

/-! ## Matcher soundness

`Lang r w` is the declarative language of a pattern; `mtch_sound` shows
that whatever the backtracking matcher consumes lies in the pattern's
language and every capture it records lies in the language of the
corresponding group body.  This gives shape facts about captured
tokens (e.g. group 1 of every measurement pattern is a non-empty
digit-and-comma string), which is what makes `_clean_value` total on
pattern output. -/

/-- Declarative language of a pattern. -/
def Lang : RE → List Char → Prop
  | .eps => fun w => w = []
  | .cls p => fun w => ∃ c, w = [c] ∧ p c = true
  | .cat a b => fun w => ∃ u v, w = u ++ v ∧ Lang a u ∧ Lang b v
  | .alt a b => fun w => Lang a w ∨ Lang b w
  | .starG p => fun w => w.all p = true
  | .starL p => fun w => w.all p = true
  | .opt a => fun w => Lang a w ∨ w = []
  | .grp _ a => fun w => Lang a w
  | .look _ => fun w => w = []
  | .eos => fun w => w = []

/-- The numbered capturing groups of a pattern with their bodies. -/
def groupBodies : RE → List (Nat × RE)
  | .grp i a => (i, a) :: groupBodies a
  | .cat a b => groupBodies a ++ groupBodies b
  | .alt a b => groupBodies a ++ groupBodies b
  | .opt a => groupBodies a
  | .look a => groupBodies a
  | _ => []

/-- A capture binding is sound for a pattern when some group of that
number exists in the pattern and the captured word is in its body's
language. -/
def GroupSpec (r : RE) (i : Nat) (w : List Char) : Prop :=
  ∃ p ∈ groupBodies r, p.1 = i ∧ Lang p.2 w

theorem groupSpec_cat_left {a b : RE} {i : Nat} {w : List Char}
    (h : GroupSpec a i w) : GroupSpec (.cat a b) i w := by
  obtain ⟨p, hp, hi, hl⟩ := h
  exact ⟨p, by simp [groupBodies, hp], hi, hl⟩

theorem groupSpec_cat_right {a b : RE} {i : Nat} {w : List Char}
    (h : GroupSpec b i w) : GroupSpec (.cat a b) i w := by
  obtain ⟨p, hp, hi, hl⟩ := h
  exact ⟨p, by simp [groupBodies, hp], hi, hl⟩

theorem groupSpec_alt_left {a b : RE} {i : Nat} {w : List Char}
    (h : GroupSpec a i w) : GroupSpec (.alt a b) i w := by
  obtain ⟨p, hp, hi, hl⟩ := h
  exact ⟨p, by simp [groupBodies, hp], hi, hl⟩

theorem groupSpec_alt_right {a b : RE} {i : Nat} {w : List Char}
    (h : GroupSpec b i w) : GroupSpec (.alt a b) i w := by
  obtain ⟨p, hp, hi, hl⟩ := h
  exact ⟨p, by simp [groupBodies, hp], hi, hl⟩

theorem groupSpec_opt {a : RE} {i : Nat} {w : List Char}
    (h : GroupSpec a i w) : GroupSpec (.opt a) i w := by
  obtain ⟨p, hp, hi, hl⟩ := h
  exact ⟨p, by simp [groupBodies, hp], hi, hl⟩

theorem groupSpec_grp {a : RE} {j i : Nat} {w : List Char}
    (h : GroupSpec a i w) : GroupSpec (.grp j a) i w := by
  obtain ⟨p, hp, hi, hl⟩ := h
  exact ⟨p, by simp [groupBodies, hp], hi, hl⟩

/-- Whatever `starGreedy` consumes satisfies the class predicate, and
the continuation is called with unchanged captures. -/
theorem starGreedy_sound (p : Char → Bool) (k : MatchK) :
    ∀ (s : List Char) (caps : Caps) (res : Caps × List Char),
      starGreedy p k s caps = some res →
      ∃ pre s2, s = pre ++ s2 ∧ pre.all p = true ∧ k s2 caps = some res := by
  intro s
  induction s with
  | nil =>
    intro caps res h
    exact ⟨[], [], rfl, rfl, h⟩
  | cons c rest ih =>
    intro caps res h
    simp only [starGreedy] at h
    by_cases hc : p c
    · rw [if_pos hc] at h
      cases hrec : starGreedy p k rest caps with
      | some r =>
        rw [hrec] at h
        obtain ⟨pre, s2, h1, h2, h3⟩ := ih caps r hrec
        cases h
        exact ⟨c :: pre, s2, by simp [h1], by simp [h2, hc], h3⟩
      | none =>
        rw [hrec] at h
        exact ⟨[], c :: rest, rfl, rfl, h⟩
    · rw [if_neg hc] at h
      exact ⟨[], c :: rest, rfl, rfl, h⟩

/-- Whatever `starLazy` consumes satisfies the class predicate, and the
continuation is called with unchanged captures. -/
theorem starLazy_sound (p : Char → Bool) (k : MatchK) :
    ∀ (s : List Char) (caps : Caps) (res : Caps × List Char),
      starLazy p k s caps = some res →
      ∃ pre s2, s = pre ++ s2 ∧ pre.all p = true ∧ k s2 caps = some res := by
  intro s
  induction s with
  | nil =>
    intro caps res h
    exact ⟨[], [], rfl, rfl, h⟩
  | cons c rest ih =>
    intro caps res h
    simp only [starLazy] at h
    cases hk : k (c :: rest) caps with
    | some r =>
      rw [hk] at h
      cases h
      exact ⟨[], c :: rest, rfl, rfl, hk⟩
    | none =>
      rw [hk] at h
      by_cases hc : p c
      · rw [if_pos hc] at h
        obtain ⟨pre, s2, h1, h2, h3⟩ := ih caps res h
        exact ⟨c :: pre, s2, by simp [h1], by simp [h2, hc], h3⟩
      · rw [if_neg hc] at h
        exact absurd h (by simp)

/-- Soundness of the backtracking matcher: on success, the input
splits into a consumed prefix in the pattern's language and a rest on
which the continuation succeeded, and the captures passed to the
continuation extend the incoming ones with group-sound bindings. -/
theorem mtch_sound (r : RE) :
    ∀ (s : List Char) (caps : Caps) (k : MatchK) (res : Caps × List Char),
      mtch r s caps k = some res →
      ∃ pre s2 ext, s = pre ++ s2 ∧ Lang r pre ∧
        (∀ pr ∈ ext, GroupSpec r pr.1 pr.2) ∧
        k s2 (ext ++ caps) = some res := by
  induction r with
  | eps =>
    intro s caps k res h
    exact ⟨[], s, [], rfl, rfl, (by intro pr hpr; cases hpr), h⟩
  | cls p =>
    intro s caps k res h
    cases s with
    | nil => exact absurd h (by simp [mtch])
    | cons c rest =>
      simp only [mtch] at h
      by_cases hc : p c
      · rw [if_pos hc] at h
        exact ⟨[c], rest, [], rfl, ⟨c, rfl, hc⟩, (by intro pr hpr; cases hpr), h⟩
      · rw [if_neg hc] at h
        exact absurd h (by simp)
  | cat a b iha ihb =>
    intro s caps k res h
    simp only [mtch] at h
    obtain ⟨pre1, s2, ext1, hs, hl1, hg1, hk1⟩ := iha s caps _ res h
    obtain ⟨pre2, s3, ext2, hs2, hl2, hg2, hk2⟩ := ihb s2 (ext1 ++ caps) k res hk1
    refine ⟨pre1 ++ pre2, s3, ext2 ++ ext1, ?_, ?_, ?_, ?_⟩
    · rw [hs, hs2, List.append_assoc]
    · exact ⟨pre1, pre2, rfl, hl1, hl2⟩
    · intro pr hpr
      rcases List.mem_append.mp hpr with h2 | h2
      · exact groupSpec_cat_right (hg2 pr h2)
      · exact groupSpec_cat_left (hg1 pr h2)
    · rw [List.append_assoc]
      exact hk2
  | alt a b iha ihb =>
    intro s caps k res h
    simp only [mtch] at h
    cases hx : mtch a s caps k with
    | some r =>
      rw [hx] at h
      cases h
      obtain ⟨pre, s2, ext, hs, hl, hg, hk⟩ := iha s caps k res hx
      exact ⟨pre, s2, ext, hs, Or.inl hl, fun pr hpr => groupSpec_alt_left (hg pr hpr), hk⟩
    | none =>
      rw [hx] at h
      obtain ⟨pre, s2, ext, hs, hl, hg, hk⟩ := ihb s caps k res h
      exact ⟨pre, s2, ext, hs, Or.inr hl, fun pr hpr => groupSpec_alt_right (hg pr hpr), hk⟩
  | starG p =>
    intro s caps k res h
    obtain ⟨pre, s2, h1, h2, h3⟩ := starGreedy_sound p k s caps res h
    exact ⟨pre, s2, [], h1, h2, (by intro pr hpr; cases hpr), h3⟩
  | starL p =>
    intro s caps k res h
    obtain ⟨pre, s2, h1, h2, h3⟩ := starLazy_sound p k s caps res h
    exact ⟨pre, s2, [], h1, h2, (by intro pr hpr; cases hpr), h3⟩
  | opt a iha =>
    intro s caps k res h
    simp only [mtch] at h
    cases hx : mtch a s caps k with
    | some r =>
      rw [hx] at h
      cases h
      obtain ⟨pre, s2, ext, hs, hl, hg, hk⟩ := iha s caps k res hx
      exact ⟨pre, s2, ext, hs, Or.inl hl, fun pr hpr => groupSpec_opt (hg pr hpr), hk⟩
    | none =>
      rw [hx] at h
      exact ⟨[], s, [], rfl, Or.inr rfl, (by intro pr hpr; cases hpr), h⟩
  | grp i a iha =>
    intro s caps k res h
    simp only [mtch] at h
    obtain ⟨pre, s2, ext, hs, hl, hg, hk⟩ := iha s caps _ res h
    have htake : s.take (s.length - s2.length) = pre := by
      subst hs
      rw [List.length_append, Nat.add_sub_cancel]
      exact List.take_left pre s2
    refine ⟨pre, s2, (i, pre) :: ext, hs, hl, ?_, ?_⟩
    · intro pr hpr
      rcases List.mem_cons.mp hpr with rfl | h2
      · exact ⟨(i, a), by simp [groupBodies], rfl, hl⟩
      · exact groupSpec_grp (hg pr h2)
    · rw [List.cons_append]
      rw [htake] at hk
      exact hk
  | look a iha =>
    intro s caps k res h
    simp only [mtch] at h
    cases hx : mtch a s caps (fun s2 c2 => some (c2, s2)) with
    | some r =>
      rw [hx] at h
      exact ⟨[], s, [], rfl, rfl, (by intro pr hpr; cases hpr), h⟩
    | none =>
      rw [hx] at h
      exact absurd h (by simp)
  | eos =>
    intro s caps k res h
    cases s with
    | nil => exact ⟨[], [], [], rfl, rfl, (by intro pr hpr; cases hpr), h⟩
    | cons c rest => exact absurd h (by simp [mtch])

/-- Every capture reported by `searchAux` is group-sound. -/
theorem searchAux_caps (re : RE) :
    ∀ (s : List Char) (pos p : Nat) (caps : Caps) (rest : List Char),
      searchAux re s pos = some (p, caps, rest) →
      ∀ pr ∈ caps, GroupSpec re pr.1 pr.2 := by
  intro s
  induction s with
  | nil =>
    intro pos p caps rest h
    simp only [searchAux] at h
    cases hx : mtch re [] [] topK with
    | some cr =>
      rw [hx] at h
      obtain ⟨c2, r2⟩ := cr
      simp only [Option.some.injEq, Prod.mk.injEq] at h
      obtain ⟨pre, s2, ext, _, _, hg, hk⟩ := mtch_sound re [] [] topK (c2, r2) hx
      simp only [topK, Option.some.injEq, Prod.mk.injEq, List.append_nil] at hk
      intro pr hpr
      rw [← h.2.1, ← hk.1] at hpr
      exact hg pr hpr
    | none =>
      rw [hx] at h
      exact absurd h (by simp)
  | cons c t ih =>
    intro pos p caps rest h
    simp only [searchAux] at h
    cases hx : mtch re (c :: t) [] topK with
    | some cr =>
      rw [hx] at h
      obtain ⟨c2, r2⟩ := cr
      simp only [Option.some.injEq, Prod.mk.injEq] at h
      obtain ⟨pre, s2, ext, _, _, hg, hk⟩ := mtch_sound re (c :: t) [] topK (c2, r2) hx
      simp only [topK, Option.some.injEq, Prod.mk.injEq, List.append_nil] at hk
      intro pr hpr
      rw [← h.2.1, ← hk.1] at hpr
      exact hg pr hpr
    | none =>
      rw [hx] at h
      exact ih (pos + 1) p caps rest h

/-- Every capture reported by `search` is group-sound. -/
theorem search_caps {re : RE} {s : List Char} {m : MatchResult}
    (h : search re s = some m) : ∀ pr ∈ m.caps, GroupSpec re pr.1 pr.2 := by
  simp only [search] at h
  cases hx : searchAux re s 0 with
  | none => rw [hx] at h; exact absurd h (by simp)
  | some out =>
    rw [hx] at h
    obtain ⟨pos, caps, rest⟩ := out
    simp only [Option.some.injEq] at h
    have := searchAux_caps re s 0 pos caps rest hx
    intro pr hpr
    apply this
    rw [← h] at hpr
    exact hpr

/-- Every capture reported by `findIter` is group-sound. -/
theorem findIter_caps {re : RE} {s : List Char} {m : MatchResult}
    (h : m ∈ findIter re s) : ∀ pr ∈ m.caps, GroupSpec re pr.1 pr.2 := by
  unfold findIter at h
  generalize hf : s.length + 1 = fuel at h
  clear hf
  induction fuel generalizing s with
  | zero => simp [findIterAux] at h
  | succ n ih =>
    simp only [findIterAux] at h
    cases hx : search re s with
    | none => rw [hx] at h; simp at h
    | some m2 =>
      rw [hx] at h
      rcases List.mem_cons.mp h with rfl | h2
      · exact search_caps hx
      · by_cases he : m2.matched.isEmpty
        · rw [if_pos he] at h2
          exact ih h2
        · rw [if_neg he] at h2
          exact ih h2

/-- A successful group lookup is a binding present in the captures. -/
theorem grpGet_mem {caps : Caps} {i : Nat} {w : List Char}
    (h : grpGet caps i = some w) : (i, w) ∈ caps := by
  simp only [grpGet, Option.map_eq_some'] at h
  obtain ⟨p, hp, hw⟩ := h
  have hmem := List.mem_of_find?_eq_some hp
  have hpred := List.find?_some hp
  obtain ⟨p1, p2⟩ := p
  simp only [beq_iff_eq] at hpred
  simp only at hw
  subst hpred
  subst hw
  exact hmem

/-! ## Shape of captured tokens

Group 1 of every `self.patterns` entry matches only non-empty strings
of digits (possibly with one comma for `total_area`), so
`_clean_value` succeeds on every capture the matcher can produce. -/

theorem digit_beq_false {c d : Char} (h : isDigitC c = true) (hd : isDigitC d = false) :
    (c == d) = false := by
  by_cases h1 : c = d
  · subst h1; rw [h] at hd; exact absurd hd (by simp)
  · exact beq_eq_false_iff_ne.mpr h1

theorem isDigit_not_comma {c : Char} (h : isDigitC c = true) : (c == ',') = false :=
  digit_beq_false h (by decide)

theorem isDigit_not_space {c : Char} (h : isDigitC c = true) : (c == ' ') = false :=
  digit_beq_false h (by decide)

theorem isDigit_not_ws {c : Char} (h : isDigitC c = true) : isWs c = false := by
  unfold isWs
  rw [digit_beq_false h (by decide), digit_beq_false h (by decide),
      digit_beq_false h (by decide), digit_beq_false h (by decide),
      digit_beq_false h (by decide), digit_beq_false h (by decide)]
  rfl

theorem dropWhile_all_false {p : Char → Bool} {l : List Char}
    (h : ∀ c ∈ l, p c = false) : l.dropWhile p = l := by
  cases l with
  | nil => rfl
  | cons c rest => simp [List.dropWhile_cons, h c (List.mem_cons_self c rest)]

theorem filter_all_true {p : Char → Bool} {l : List Char}
    (h : ∀ c ∈ l, p c = true) : l.filter p = l := by
  induction l with
  | nil => rfl
  | cons c rest ih =>
    rw [List.filter_cons, if_pos (h c (List.mem_cons_self c rest))]
    rw [ih (fun x hx => h x (List.mem_cons_of_mem c hx))]

theorem filter_all_false {p : Char → Bool} {l : List Char}
    (h : ∀ c ∈ l, p c = false) : l.filter p = [] := by
  induction l with
  | nil => rfl
  | cons c rest ih =>
    rw [List.filter_cons, if_neg (by simp [h c (List.mem_cons_self c rest)])]
    exact ih (fun x hx => h x (List.mem_cons_of_mem c hx))

theorem pyStrip_of_no_ws {l : List Char}
    (h : ∀ c ∈ l, isWs c = false) : pyStrip l = l := by
  unfold pyStrip
  rw [dropWhile_all_false h]
  rw [dropWhile_all_false (fun c hc => h c (List.mem_reverse.mp hc))]
  exact List.reverse_reverse l

theorem pyFloat_digits {l : List Char} (h1 : l ≠ []) (h2 : l.all isDigitC = true) :
    pyFloat l = some (digitsVal l) := by
  have hall : ∀ c ∈ l, isDigitC c = true := fun c hc => List.all_eq_true.mp h2 c hc
  have hstrip : pyStrip l = l := pyStrip_of_no_ws (fun c hc => isDigit_not_ws (hall c hc))
  have hneg : (l.head? = some '-') = False := by
    cases l with
    | nil => exact absurd rfl h1
    | cons c rest =>
      simp only [List.head?_cons, Option.some.injEq, eq_iff_iff, iff_false]
      intro hc
      subst hc
      exact absurd (hall '-' (List.mem_cons_self _ _)) (by decide)
  have hpos : (l.head? = some '+') = False := by
    cases l with
    | nil => exact absurd rfl h1
    | cons c rest =>
      simp only [List.head?_cons, Option.some.injEq, eq_iff_iff, iff_false]
      intro hc
      subst hc
      exact absurd (hall '+' (List.mem_cons_self _ _)) (by decide)
  have htake : l.takeWhile isDigitC = l := List.takeWhile_eq_self_iff.mpr (by
    intro x hx; exact hall x hx)
  have hdrop : l.dropWhile isDigitC = [] := List.dropWhile_eq_nil_iff.mpr (by
    intro x hx; exact hall x hx)
  unfold pyFloat
  rw [hstrip]
  simp [hneg, hpos, htake, hdrop, List.isEmpty_iff, h1]

theorem cleanValue_of_digits_commas {w : List Char}
    (hne : (w.filter (fun c => !(c == ',' || c == ' '))).all isDigitC = true)
    (hnonempty : w.filter (fun c => !(c == ',' || c == ' ')) ≠ []) :
    ∃ q, cleanValue w = .ok q := by
  unfold cleanValue
  rw [pyFloat_digits hnonempty hne]
  exact ⟨_, rfl⟩

/-- Inversion for the language of `\d+`. -/
theorem lang_digP {w : List Char} (h : Lang digP w) :
    w ≠ [] ∧ w.all isDigitC = true := by
  simp only [digP, Lang] at h
  obtain ⟨u, v, hw, ⟨c, hu, hc⟩, hv⟩ := h
  subst hu
  subst hw
  constructor
  · simp
  · simp [hc, hv]

/-- Group 1 of the simple length/area patterns (`(\d+)`): the capture
is a non-empty digit string, so `_clean_value` succeeds on it. -/
theorem cleanValue_of_lang_digP {w : List Char} (h : Lang digP w) :
    ∃ q, cleanValue w = .ok q := by
  obtain ⟨hne, hall⟩ := lang_digP h
  have hfilter : w.filter (fun c => !(c == ',' || c == ' ')) = w := by
    apply filter_all_true
    intro c hc
    have hd := List.all_eq_true.mp hall c hc
    simp [isDigit_not_comma hd, isDigit_not_space hd]
  apply cleanValue_of_digits_commas <;> rw [hfilter]
  · exact hall
  · exact hne

/-- Group 1 of `total_area` (`(\d+,?\d*)`): after dropping commas and
spaces the capture is a non-empty digit string, so `_clean_value`
succeeds on it. -/
theorem cleanValue_of_lang_taBody {w : List Char}
    (h : Lang (cats [digP, .opt (chE ','), .starG isDigitC]) w) :
    ∃ q, cleanValue w = .ok q := by
  simp only [cats, List.foldr, Lang] at h
  obtain ⟨u1, v1, hw, hd1, u2, v2, hv1, hopt, u3, v3, hv2, hstar, heps⟩ := h
  have h1 := lang_digP hd1
  have hps : ∀ c ∈ u1, isDigitC c = true := fun c hc => List.all_eq_true.mp h1.2 c hc
  have hps3 : ∀ c ∈ u3, isDigitC c = true := fun c hc => List.all_eq_true.mp hstar c hc
  have hfilter : w.filter (fun c => !(c == ',' || c == ' ')) = u1 ++ u3 := by
    subst hw hv1 hv2 heps
    rw [List.filter_append, List.filter_append, List.filter_append]
    have f1 : u1.filter (fun c => !(c == ',' || c == ' ')) = u1 :=
      filter_all_true (fun c hc => by
        have hd := hps c hc
        simp [isDigit_not_comma hd, isDigit_not_space hd])
    have f3 : u3.filter (fun c => !(c == ',' || c == ' ')) = u3 :=
      filter_all_true (fun c hc => by
        have hd := hps3 c hc
        simp [isDigit_not_comma hd, isDigit_not_space hd])
    have f2 : u2.filter (fun c => !(c == ',' || c == ' ')) = [] := by
      rcases hopt with ⟨c, hu2, hc⟩ | hu2
      · subst hu2
        simp only [beq_iff_eq] at hc
        subst hc
        rfl
      · subst hu2; rfl
    rw [f1, f2, f3]
    simp
  apply cleanValue_of_digits_commas <;> rw [hfilter]
  · rw [List.all_append]
    simp only [Bool.and_eq_true]
    exact ⟨h1.2, hstar⟩
  · intro hcontra
    rcases List.append_eq_nil.mp hcontra with ⟨hc1, _⟩
    exact h1.1 hc1

/-- A sound capture of a single-group pattern lies in the language of
that group's body. -/
theorem capture_lang {re body : RE} {text : List Char} {m : MatchResult} {w : List Char}
    (hgb : groupBodies re = [(1, body)])
    (hm : m ∈ findIter re text) (hw : grpGet m.caps 1 = some w) : Lang body w := by
  obtain ⟨p, hp, hi, hl⟩ := findIter_caps hm (1, w) (grpGet_mem hw)
  rw [hgb] at hp
  have := List.mem_singleton.mp hp
  subst this
  exact hl

/-! ## Characterisation of `_find_all_measurements` on the configured
patterns

Every entry of `self.patterns` has exactly one capturing group, so the
embedded-count branch (lines 87-88) is never taken, and for non-ratio
measurements each kept match carries the cleaned group-1 number. -/

/-- Output of `_find_all_measurements` for a one-group, non-ratio
pattern whose captures all clean successfully. -/
def findAllNumOutput (pat : RE) (pg : Nat) (text : List Char) : List MatchRec :=
  (findIter pat text).filterMap (fun m =>
    match grpGet m.caps 1 with
    | none => none
    | some w =>
      if w.isEmpty then none
      else
        match cleanValue w with
        | .ok q => some ⟨.num q, none, pg⟩
        | .error _ => none)

theorem buildMeasurements_eq_num (ty : Option String) (pg : Nat)
    (hty : (ty == some "predominant_pitch") = false) :
    ∀ ms : List MatchResult,
      (∀ m ∈ ms, ∀ w, grpGet m.caps 1 = some w → w ≠ [] → ∃ q, cleanValue w = .ok q) →
      buildMeasurements ty pg 1 ms = .ok (ms.filterMap (fun m =>
        match grpGet m.caps 1 with
        | none => none
        | some w =>
          if w.isEmpty then none
          else
            match cleanValue w with
            | .ok q => some ⟨.num q, none, pg⟩
            | .error _ => none)) := by
  intro ms
  induction ms with
  | nil => intro _; rfl
  | cons m rest ih =>
    intro h
    have hrest := ih (fun m2 hm2 => h m2 (List.mem_cons_of_mem m hm2))
    simp only [buildMeasurements, List.filterMap_cons]
    cases hg : grpGet m.caps 1 with
    | none =>
      simp only [hg, Option.getD_none, List.isEmpty_nil, if_true]
      exact hrest
    | some w =>
      simp only [hg, Option.getD_some]
      by_cases hw : w.isEmpty
      · simp only [hw, if_true]
        exact hrest
      · simp only [hw, if_false, Bool.false_eq_true]
        have hwne : w ≠ [] := by
          intro hc; subst hc; exact hw rfl
        obtain ⟨q, hq⟩ := h m (List.mem_cons_self m rest) w hg hwne
        simp only [hty, Bool.false_eq_true, if_false, hq]
        rw [hrest]
        simp

theorem buildMeasurements_eq_pitch (pg : Nat) :
    ∀ ms : List MatchResult,
      buildMeasurements (some "predominant_pitch") pg 1 ms = .ok (ms.filterMap (fun m =>
        match grpGet m.caps 1 with
        | none => none
        | some w => if w.isEmpty then none else some ⟨.str w, none, pg⟩)) := by
  intro ms
  induction ms with
  | nil => rfl
  | cons m rest ih =>
    simp only [buildMeasurements, List.filterMap_cons]
    cases hg : grpGet m.caps 1 with
    | none =>
      simp only [hg, Option.getD_none, List.isEmpty_nil, if_true]
      exact ih
    | some w =>
      simp only [hg, Option.getD_some]
      by_cases hw : w.isEmpty
      · simp only [hw, if_true]
        exact ih
      · simp only [hw, if_false, Bool.false_eq_true]
        rw [ih]
        simp

/-- `_find_all_measurements` on a one-group pattern whose group body
only matches cleanable tokens: it never raises, and returns the
cleaned numbers of the non-empty captures. -/
theorem findAll_eq_num (pat body : RE) (name : String) (text : List Char)
    (hng : numGroups pat = 1)
    (hgb : groupBodies pat = [(1, body)])
    (hclean : ∀ w, Lang body w → ∃ q, cleanValue w = .ok q)
    (hname : ((some name : Option String) == some "predominant_pitch") = false) :
    findAllMeasurements pat text 1 (some name) = .ok (findAllNumOutput pat 1 text) := by
  unfold findAllMeasurements findAllNumOutput
  rw [hng]
  exact buildMeasurements_eq_num (some name) 1 hname (findIter pat text)
    (fun m hm w hw _ => hclean w (capture_lang hgb hm hw))

/-- Every record produced by `findAllNumOutput` has a numeric value,
no count, and the given page. -/
theorem findAllNumOutput_shape (pat : RE) (pg : Nat) (text : List Char) :
    ∀ r ∈ findAllNumOutput pat pg text,
      (∃ q, r.value = .num q) ∧ r.count = none ∧ r.page = pg := by
  intro r hr
  obtain ⟨m, _, heq⟩ := List.mem_filterMap.mp hr
  revert heq
  cases grpGet m.caps 1 with
  | none => intro heq; cases heq
  | some w =>
    by_cases hw : w.isEmpty
    · simp [hw]
    · simp only [hw, if_false, Bool.false_eq_true]
      cases hq : cleanValue w with
      | error e => intro heq; cases heq
      | ok q =>
        intro heq
        cases heq
        exact ⟨⟨q, rfl⟩, rfl, rfl⟩

/-- Output of `_find_all_measurements` for `predominant_pitch`: the
literal captures, uncleaned. -/
def findAllPitchOutput (text : List Char) : List MatchRec :=
  (findIter predominantPitchPat text).filterMap (fun m =>
    match grpGet m.caps 1 with
    | none => none
    | some w => if w.isEmpty then none else some ⟨.str w, none, 1⟩)

theorem findAll_eq_pitch (text : List Char) :
    findAllMeasurements predominantPitchPat text 1 (some "predominant_pitch") =
      .ok (findAllPitchOutput text) := by
  unfold findAllMeasurements findAllPitchOutput
  rw [show numGroups predominantPitchPat = 1 from rfl]
  exact buildMeasurements_eq_pitch 1 (findIter predominantPitchPat text)

/-! ## Consolidation success lemmas -/

theorem sumValues_ok : ∀ vs : List MValue,
    (∀ v ∈ vs, ∃ q, v = .num q) → ∃ s, sumValues vs = .ok s := by
  intro vs
  induction vs with
  | nil => intro _; exact ⟨0, rfl⟩
  | cons v rest ih =>
    intro h
    obtain ⟨q, hq⟩ := h v (List.mem_cons_self v rest)
    obtain ⟨s, hs⟩ := ih (fun x hx => h x (List.mem_cons_of_mem v hx))
    subst hq
    exact ⟨q + s, by simp [sumValues, hs]⟩

/-- `_consolidate_measurements` never raises when every match value is
numeric. -/
theorem consolidate_ok_of_num (found : List MatchRec)
    (h : ∀ m ∈ found, ∃ q, m.value = .num q) :
    ∃ out, consolidateMeasurements found = .ok out := by
  cases found with
  | nil => exact ⟨none, rfl⟩
  | cons first others =>
    have hvals : ∀ v ∈ (first :: others).map (fun m => m.value), ∃ q, v = .num q := by
      intro v hv
      obtain ⟨m, hm, hmv⟩ := List.mem_map.mp hv
      obtain ⟨q, hq⟩ := h m hm
      exact ⟨q, hmv ▸ hq⟩
    obtain ⟨s, hs⟩ := sumValues_ok _ hvals
    by_cases hu : (((first :: others).map (fun m => m.value)).dedup.length == 1) = true
    · exact ⟨_, by simp only [consolidateMeasurements, hu, if_true]; rfl⟩
    · have hu2 : (((first :: others).map (fun m => m.value)).dedup.length == 1) = false :=
        eq_false_of_ne_true hu
      exact ⟨_, by
        simp only [consolidateMeasurements, hu2, Bool.false_eq_true, if_false, hs]; rfl⟩

theorem dedup_const {α : Type} [DecidableEq α] (a : α) :
    ∀ l : List α, (∀ x ∈ l, x = a) → (a :: l).dedup = [a] := by
  intro l
  induction l with
  | nil => intro _; simp
  | cons b t ih =>
    intro h
    have hb : b = a := h b (List.mem_cons_self b t)
    subst hb
    have hmem : b ∈ b :: t := List.mem_cons_self b t
    rw [List.dedup_cons_of_mem hmem]
    exact ih (fun x hx => h x (List.mem_cons_of_mem b hx))

/-- `_consolidate_measurements` never raises when all match values are
equal (the single-distinct-value path never sums). -/
theorem consolidate_ok_of_const (found : List MatchRec)
    (h : ∀ m1 ∈ found, m1.value = (found.headD ⟨.num 0, none, 0⟩).value) :
    ∃ out, consolidateMeasurements found = .ok out := by
  cases found with
  | nil => exact ⟨none, rfl⟩
  | cons first others =>
    have hdd : ((first :: others).map (fun m => m.value)).dedup = [first.value] := by
      simp only [List.map_cons]
      apply dedup_const
      intro x hx
      obtain ⟨m, hm, hmv⟩ := List.mem_map.mp hx
      rw [← hmv]
      exact h m (List.mem_cons_of_mem first hm)
    exact ⟨_, by simp only [consolidateMeasurements, hdd, List.length_singleton]; rfl⟩

/-! ## The scalar-extraction loop -/

theorem setMeasurement_preserve {m : Measurements} {key : String} {v : MValue}
    (h : key ≠ "total_area") : (setMeasurement m key v).total_area = m.total_area := by
  unfold setMeasurement
  rw [if_neg h]
  repeat' split
  all_goals rfl

theorem setMeasurement_total_area (m : Measurements) (v : MValue) :
    (setMeasurement m "total_area" v).total_area = some v := by
  unfold setMeasurement
  rw [if_pos rfl]

/-- `applyPattern` succeeds and leaves `total_area` untouched for every
one-group pattern with a digit-string body whose name is neither
`predominant_pitch` nor `total_area`. -/
theorem applyPattern_digP_ok (name : String) (pat : RE) (text : List Char) (m : Measurements)
    (hng : numGroups pat = 1) (hgb : groupBodies pat = [(1, digP)])
    (hname : ((some name : Option String) == some "predominant_pitch") = false)
    (hname2 : name ≠ "predominant_pitch") (hname3 : name ≠ "total_area") :
    ∃ m2, applyPattern m (name, pat) text = .ok m2 ∧ m2.total_area = m.total_area := by
  have hfa := findAll_eq_num pat digP name text hng hgb
    (fun w hw => cleanValue_of_lang_digP hw) hname
  unfold applyPattern
  simp only [hfa]
  cases houtput : findAllNumOutput pat 1 text with
  | nil => exact ⟨m, rfl, rfl⟩
  | cons r rs =>
    dsimp only
    rw [if_neg hname2]
    have hnum : ∀ x ∈ r :: rs, ∃ q, x.value = .num q := by
      rw [← houtput]
      intro x hx
      exact (findAllNumOutput_shape pat 1 text x hx).1
    obtain ⟨out, hout⟩ := consolidate_ok_of_num _ hnum
    cases out with
    | none => exact ⟨m, by simp [hout], rfl⟩
    | some c =>
      exact ⟨setMeasurement m name c.value, by simp [hout], setMeasurement_preserve hname3⟩

/-- `applyPattern` succeeds for `predominant_pitch` (the first match is
stored without consolidation) and leaves `total_area` untouched. -/
theorem applyPattern_pitch_ok (text : List Char) (m : Measurements) :
    ∃ m2, applyPattern m ("predominant_pitch", predominantPitchPat) text = .ok m2 ∧
      m2.total_area = m.total_area := by
  have hfa := findAll_eq_pitch text
  unfold applyPattern
  simp only [hfa]
  cases houtput : findAllPitchOutput text with
  | nil => exact ⟨m, rfl, rfl⟩
  | cons r rs =>
    dsimp only
    rw [if_pos trivial]
    exact ⟨setMeasurement m "predominant_pitch" r.value, rfl,
      setMeasurement_preserve (by decide)⟩

theorem runPatterns_preserve (text : List Char) :
    ∀ (pats : List (String × RE)) (m0 : Measurements),
      (∀ e ∈ pats, ∀ m, ∃ m2, applyPattern m e text = .ok m2 ∧ m2.total_area = m.total_area) →
      ∃ m1, runPatterns pats text m0 = .ok m1 ∧ m1.total_area = m0.total_area := by
  intro pats
  induction pats with
  | nil => intro m0 _; exact ⟨m0, rfl, rfl⟩
  | cons e rest ih =>
    intro m0 h
    obtain ⟨m2, hap, hpres⟩ := h e (List.mem_cons_self e rest) m0
    obtain ⟨m1, hrun, hta⟩ := ih m2 (fun e2 he2 m => h e2 (List.mem_cons_of_mem e he2) m)
    refine ⟨m1, ?_, by rw [hta, hpres]⟩
    simp only [runPatterns, hap]
    exact hrun

/-- The ten pattern-table entries after `total_area` all apply cleanly
and never touch `total_area`. -/
theorem tail_patterns_ok (text : List Char) :
    ∀ e ∈ createExtractor.patterns.tail, ∀ m : Measurements,
      ∃ m2, applyPattern m e text = .ok m2 ∧ m2.total_area = m.total_area := by
  intro e he m
  simp only [createExtractor, List.tail_cons, List.mem_cons, List.not_mem_nil, or_false] at he
  rcases he with rfl | rfl | rfl | rfl | rfl | rfl | rfl | rfl | rfl | rfl
  · exact applyPattern_pitch_ok text m
  · exact applyPattern_digP_ok "ridges" ridgesPat text m rfl rfl (by decide) (by decide) (by decide)
  · exact applyPattern_digP_ok "valleys" valleysPat text m rfl rfl (by decide) (by decide) (by decide)
  · exact applyPattern_digP_ok "eaves" eavesPat text m rfl rfl (by decide) (by decide) (by decide)
  · exact applyPattern_digP_ok "rakes" rakesPat text m rfl rfl (by decide) (by decide) (by decide)
  · exact applyPattern_digP_ok "hips" hipsPat text m rfl rfl (by decide) (by decide) (by decide)
  · exact applyPattern_digP_ok "flashing" flashingPat text m rfl rfl (by decide) (by decide) (by decide)
  · exact applyPattern_digP_ok "step_flashing" stepFlashingPat text m rfl rfl (by decide) (by decide) (by decide)
  · exact applyPattern_digP_ok "penetrations_area" penetrationsAreaPat text m rfl rfl (by decide) (by decide) (by decide)
  · exact applyPattern_digP_ok "penetrations_perimeter" penetrationsPerimeterPat text m rfl rfl (by decide) (by decide) (by decide)

/-- The group-1 body of the `total_area` pattern, `(\d+,?\d*)`. -/
def taBody : RE := cats [digP, .opt (chE ','), .starG isDigitC]

/-- `applyPattern` succeeds for the `total_area` entry on every text. -/
theorem applyPattern_ta_ok (text : List Char) (m : Measurements) :
    ∃ m2, applyPattern m ("total_area", totalAreaPat) text = .ok m2 := by
  have hfa := findAll_eq_num totalAreaPat taBody "total_area" text rfl rfl
    (fun w hw => cleanValue_of_lang_taBody hw) (by decide)
  unfold applyPattern
  simp only [hfa]
  cases houtput : findAllNumOutput totalAreaPat 1 text with
  | nil => exact ⟨m, rfl⟩
  | cons r rs =>
    dsimp only
    rw [if_neg (by decide : ¬("total_area" = "predominant_pitch"))]
    have hnum : ∀ x ∈ r :: rs, ∃ q, x.value = .num q := by
      rw [← houtput]
      intro x hx
      exact (findAllNumOutput_shape totalAreaPat 1 text x hx).1
    obtain ⟨out, hout⟩ := consolidate_ok_of_num _ hnum
    cases out with
    | none => exact ⟨m, by simp [hout]⟩
    | some c => exact ⟨setMeasurement m "total_area" c.value, by simp [hout]⟩

/-- The whole scalar-extraction loop succeeds on every text: no
configured pattern can produce a token that `_clean_value` rejects. -/
theorem runPatterns_full_ok (text : List Char) (m0 : Measurements) :
    ∃ m1, runPatterns createExtractor.patterns text m0 = .ok m1 := by
  obtain ⟨m2, h2⟩ := applyPattern_ta_ok text m0
  obtain ⟨m1, hrun, _⟩ :=
    runPatterns_preserve text createExtractor.patterns.tail m2 (tail_patterns_ok text)
  refine ⟨m1, ?_⟩
  show runPatterns (("total_area", totalAreaPat) :: createExtractor.patterns.tail) text m0 =
    .ok m1
  simp only [runPatterns, h2]
  exact hrun

/-- Shared helper: the only error `process_pdf` can return is the
required-field failure for `total_area`. -/
theorem processPdf_error_only (text : List Char) (e : String)
    (h : (processPdf createExtractor text).1 = .error e) :
    e = "Total Roof Area measurement is required but not found" := by
  obtain ⟨m1, hrun⟩ := runPatterns_full_ok text initMeasurements
  unfold processPdf at h
  dsimp only at h
  simp only [hrun] at h
  cases hta : m1.total_area with
  | none =>
    rw [hta] at h
    simp only [Except.error.injEq] at h
    exact h.symm
  | some v =>
    rw [hta] at h
    exact absurd h (by simp)

/-- The group-1 captures of the total-area pattern over a text, in
match order (`None` for a match where the group did not participate —
impossible for this pattern, but kept for fidelity). -/
def totalAreaCaptures (text : List Char) : List (Option (List Char)) :=
  (findIter totalAreaPat text).map (fun m => grpGet m.caps 1)

theorem map_eq_singleton {α β : Type} (f : α → β) (l : List α) (b : β)
    (h : l.map f = [b]) : ∃ a, l = [a] ∧ f a = b := by
  cases l with
  | nil => cases h
  | cons x t =>
    cases t with
    | nil =>
      simp only [List.map_cons, List.map_nil, List.cons.injEq, and_true] at h
      exact ⟨x, rfl, h⟩
    | cons y u => simp at h

/-! ## Claim theorems -/

/-- C2.  For every document text on which the total-area pattern finds
no match, `process_pdf` aborts with the fatal required-field
`ValueError` of line 354 (RequiredFieldMissing), rather than returning
a record without `total_area`. -/
theorem required_field_missing_aborts (text : List Char)
    (h : totalAreaCaptures text = []) :
    (processPdf createExtractor text).1 =
      .error "Total Roof Area measurement is required but not found" := by
  have hfi : findIter totalAreaPat text = [] := by
    have := h
    unfold totalAreaCaptures at this
    exact List.map_eq_nil_iff.mp this
  have hout : findAllNumOutput totalAreaPat 1 text = [] := by
    unfold findAllNumOutput
    rw [hfi]
    rfl
  have hfa : findAllMeasurements totalAreaPat text 1 (some "total_area") = .ok [] := by
    rw [findAll_eq_num totalAreaPat taBody "total_area" text rfl rfl
      (fun w hw => cleanValue_of_lang_taBody hw) (by decide), hout]
  have hap : applyPattern initMeasurements ("total_area", totalAreaPat) text =
      .ok initMeasurements := by
    unfold applyPattern
    simp only [hfa]
  obtain ⟨m1, hrun, hta⟩ :=
    runPatterns_preserve text createExtractor.patterns.tail initMeasurements
      (tail_patterns_ok text)
  have hfull : runPatterns createExtractor.patterns text initMeasurements = .ok m1 := by
    show runPatterns (("total_area", totalAreaPat) :: createExtractor.patterns.tail) text
      initMeasurements = .ok m1
    simp only [runPatterns, hap]
    exact hrun
  have hnone : m1.total_area = none := by
    rw [hta]
    rfl
  unfold processPdf
  dsimp only
  simp only [hfull, hnone]

/-- C2 witness: a concrete text with no total-area match fails with
the required-field error. -/
theorem required_field_missing_aborts_witness :
    totalAreaCaptures "no roof measurements here".data = [] ∧
      (processPdf createExtractor "no roof measurements here".data).1 =
        .error "Total Roof Area measurement is required but not found" :=
  ⟨by decide, required_field_missing_aborts "no roof measurements here".data (by decide)⟩

/-- C7.  A parse failure on a matched numeric token can never abort
extraction: group 1 of every configured pattern only matches
digit-and-comma strings, which `_clean_value` always parses, so the
only error `process_pdf` can ever return is the required-field
failure — never a `ValueError` from a malformed token. -/
theorem value_parse_error_never_fatal (text : List Char) (e : String)
    (h : (processPdf createExtractor text).1 = .error e) :
    e = "Total Roof Area measurement is required but not found" :=
  processPdf_error_only text e h

/-- C7 witness: the theorem applied at a concrete failing text. -/
theorem value_parse_error_never_fatal_witness :
    (processPdf createExtractor "x".data).1 =
        .error "Total Roof Area measurement is required but not found" ∧
      "Total Roof Area measurement is required but not found" =
        "Total Roof Area measurement is required but not found" :=
  ⟨by decide, value_parse_error_never_fatal "x".data _ (by decide)⟩

/-- C1 counterexample.  The claim's phrase `Total Area (All Pitches) =
1,234 sq ft` does not match the compiled total-area pattern
(`Total\s+Roof\s+Area\s*=...`), so on a document consisting of exactly
that phrase `process_pdf` aborts with the required-field error: the
assembled record does not contain a `total_area` measurement at all,
let alone one with value 1234.0 and an area unit. -/
theorem total_area_phrase_counterexample :
    (processPdf createExtractor "Total Area (All Pitches) = 1,234 sq ft".data).1 =
      .error "Total Roof Area measurement is required but not found" := by
  decide

/-- C1 amended.  For every text whose total-area pattern (`Total Roof
Area = ... sq ft`) captures exactly the token `1,234`, the assembled
record's `measurements.total_area` holds the bare number 1234.0; the
`sq_ft` unit computed on line 322 is discarded and never attached to
the stored value (the field is a bare number by construction). -/
theorem total_area_value_extracted (text : List Char)
    (h : totalAreaCaptures text = [some "1,234".data]) :
    ∃ r, (processPdf createExtractor text).1 = .ok r ∧
      r.measurements.total_area = some (.num 1234) := by
  obtain ⟨mm, hfi, hg⟩ := map_eq_singleton _ _ _ h
  have hout : findAllNumOutput totalAreaPat 1 text =
      [⟨.num 1234, none, 1⟩] := by
    unfold findAllNumOutput
    rw [hfi, List.filterMap_cons, hg]
    decide
  have hfa : findAllMeasurements totalAreaPat text 1 (some "total_area") =
      .ok [⟨.num 1234, none, 1⟩] := by
    rw [findAll_eq_num totalAreaPat taBody "total_area" text rfl rfl
      (fun w hw => cleanValue_of_lang_taBody hw) (by decide), hout]
  have hap : applyPattern initMeasurements ("total_area", totalAreaPat) text =
      .ok (setMeasurement initMeasurements "total_area" (.num 1234)) := by
    unfold applyPattern
    simp only [hfa]
    rw [if_neg (by decide : ¬("total_area" = "predominant_pitch"))]
    rw [show consolidateMeasurements [⟨.num 1234, none, 1⟩] =
      .ok (some ⟨.num 1234, none, 1⟩) from by decide]
  obtain ⟨m1, hrun, hta⟩ :=
    runPatterns_preserve text createExtractor.patterns.tail
      (setMeasurement initMeasurements "total_area" (.num 1234)) (tail_patterns_ok text)
  have hfull : runPatterns createExtractor.patterns text initMeasurements = .ok m1 := by
    show runPatterns (("total_area", totalAreaPat) :: createExtractor.patterns.tail) text
      initMeasurements = .ok m1
    simp only [runPatterns, hap]
    exact hrun
  have hta2 : m1.total_area = some (.num 1234) := by
    rw [hta, setMeasurement_total_area]
  unfold processPdf
  dsimp only
  simp only [hfull, hta2]
  exact ⟨_, rfl, hta2⟩

/-- C1 amended witness: a concrete document carrying exactly one
`Total Roof Area = 1,234 sq ft` phrase. -/
theorem total_area_value_extracted_witness :
    totalAreaCaptures "Report. Total Roof Area = 1,234 sq ft. End.".data =
        [some "1,234".data] ∧
      ∃ r, (processPdf createExtractor "Report. Total Roof Area = 1,234 sq ft. End.".data).1 =
          .ok r ∧ r.measurements.total_area = some (.num 1234) :=
  ⟨by decide,
   total_area_value_extracted "Report. Total Roof Area = 1,234 sq ft. End.".data (by decide)⟩

/-- The numeric values of a match list, in order. -/
def numValues (l : List MatchRec) : List ℚ :=
  l.filterMap (fun m =>
    match m.value with
    | .num q => some q
    | .str _ => none)

theorem sumValues_eq_sum : ∀ l : List MValue,
    (∀ v ∈ l, ∃ q, v = .num q) →
    sumValues l = .ok ((l.filterMap (fun v =>
      match v with
      | .num q => some q
      | .str _ => none)).sum) := by
  intro l
  induction l with
  | nil => intro _; rfl
  | cons v rest ih =>
    intro h
    obtain ⟨q, hq⟩ := h v (List.mem_cons_self v rest)
    subst hq
    rw [List.filterMap_cons]
    simp only [sumValues, ih (fun x hx => h x (List.mem_cons_of_mem _ hx))]
    rw [List.sum_cons]

/-- C3 counterexample.  Three matches with values 5, 5, 7 have two
distinct values, so the claim predicts the consolidated value
5 + 7 = 12 (each distinct value once); the code sums all matched
values (line 106) and returns 17. -/
theorem consolidation_distinct_sum_counterexample :
    consolidateMeasurements
        [⟨.num 5, none, 1⟩, ⟨.num 5, none, 1⟩, ⟨.num 7, none, 1⟩] =
      .ok (some ⟨.num 17, none, 1⟩) ∧ (17 : ℚ) ≠ 5 + 7 := by
  constructor
  · have h17 : (5 + (5 + (7 + (0 : ℚ)))) = 17 := by norm_num
    rw [← h17]
    rfl
  · norm_num

/-- C3 amended.  For a non-ratio measurement with at least one match:
one distinct value consolidates to that value; otherwise the result is
the sum of ALL matched values, duplicates included (so two equal
matches give that value, and two different matches give their sum, as
the claim says, but a duplicated value among three or more matches is
counted as many times as it occurs). -/
theorem consolidation_value_rule (first : MatchRec) (rest : List MatchRec)
    (hnum : ∀ m ∈ first :: rest, ∃ q, m.value = .num q) :
    ∃ cnt, consolidateMeasurements (first :: rest) =
      .ok (some ⟨(if ((first :: rest).map (fun m => m.value)).dedup.length = 1
                  then first.value
                  else .num (numValues (first :: rest)).sum), cnt, first.page⟩) := by
  have hvals : ∀ v ∈ (first :: rest).map (fun m => m.value), ∃ q, v = .num q := by
    intro v hv
    obtain ⟨m, hm, hmv⟩ := List.mem_map.mp hv
    obtain ⟨q, hq⟩ := hnum m hm
    exact ⟨q, hmv ▸ hq⟩
  have hsum := sumValues_eq_sum _ hvals
  have hnv : ((first :: rest).map (fun m => m.value)).filterMap (fun v =>
      match v with
      | .num q => some q
      | .str _ => none) = numValues (first :: rest) := by
    unfold numValues
    rw [List.filterMap_map]
    rfl
  by_cases hdl : ((first :: rest).map (fun m => m.value)).dedup.length = 1
  · rw [if_pos hdl]
    have hb : ((((first :: rest).map (fun m => m.value)).dedup.length) == 1) = true :=
      beq_iff_eq.mpr hdl
    exact ⟨_, by simp only [consolidateMeasurements, hb, if_true]; rfl⟩
  · rw [if_neg hdl]
    have hb : ((((first :: rest).map (fun m => m.value)).dedup.length) == 1) = false :=
      beq_eq_false_iff_ne.mpr hdl
    exact ⟨_, by
      simp only [consolidateMeasurements, hb, Bool.false_eq_true, if_false, hsum, hnv]
      rfl⟩

/-- C3 witness: two matches with different values consolidate to their
sum. -/
theorem consolidation_value_rule_witness :
    (∀ m ∈ [(⟨.num 2, none, 1⟩ : MatchRec), ⟨.num 3, none, 1⟩], ∃ q, m.value = .num q) ∧
      ∃ cnt, consolidateMeasurements [⟨.num 2, none, 1⟩, ⟨.num 3, none, 1⟩] =
        .ok (some ⟨(if (([(⟨.num 2, none, 1⟩ : MatchRec), ⟨.num 3, none, 1⟩].map
                      (fun m => m.value)).dedup.length = 1)
                    then MValue.num 2
                    else .num (numValues [⟨.num 2, none, 1⟩, ⟨.num 3, none, 1⟩]).sum),
                   cnt, 1⟩) :=
  ⟨(by
    intro m hm
    rcases List.mem_cons.mp hm with rfl | hm2
    · exact ⟨2, rfl⟩
    · rcases List.mem_cons.mp hm2 with rfl | hm3
      · exact ⟨3, rfl⟩
      · cases hm3),
   consolidation_value_rule ⟨.num 2, none, 1⟩ [⟨.num 3, none, 1⟩] (by
    intro m hm
    rcases List.mem_cons.mp hm with rfl | hm2
    · exact ⟨2, rfl⟩
    · rcases List.mem_cons.mp hm2 with rfl | hm3
      · exact ⟨3, rfl⟩
      · cases hm3)⟩

/-- C4 (code bug).  Two matches with distinct values 5 and 7 and no
embedded counts: the claim (and the comments on lines 111-113) say the
count falls back to the number of distinct values, 2; the code returns
no count, because `max((m.get('count', 0) ...), default=None)` over a
non-empty match list is 0, never `None` — so the line-112 fallback is
dead code — and a 0 count is falsy and stored as `None` on line 117. -/
theorem consolidation_count_fallback_dead :
    consolidateMeasurements [⟨.num 5, none, 1⟩, ⟨.num 7, none, 1⟩] =
        .ok (some ⟨.num 12, none, 1⟩) ∧
      ([MValue.num 5, .num 7].dedup.length = 2) ∧
      (none : Option Int) ≠ some 2 := by
  refine ⟨?_, by decide, by decide⟩
  have h12 : (5 + (7 + (0 : ℚ))) = 12 := by norm_num
  rw [← h12]
  rfl

/-- The synthetic C5 line run, joined as the document text the parser
receives. -/
def c5Text : List Char :=
  "Areas per Pitch\n4/12\n4/12\n1000\n50%\n2/12\n1000\n50%\nStructure Complexity".data

/-- C5 counterexample.  On the synthetic run the recovered table has no
entries at all, not two: the section capture contains all three `4/12`
lines (the first is data, not header), giving 3 pitch lines but only
2 area and 2 percentage lines, and the grouping loop rejects the
incomplete triple (lines 171-191). -/
theorem pitch_table_roundtrip_counterexample :
    (parseAreasPerPitch c5Text).length = 0 ∧ (parseAreasPerPitch c5Text).length ≠ 2 := by
  constructor
  · decide
  · decide

/-- C5 amended: the pitch-table recoverer of `extractor.py` produces an
empty table on the synthetic run (the triple-validated grouping of
this revision rejects the run; the two-entry round-trip behaviour
belongs to a different revision of the parser). -/
theorem pitch_table_roundtrip_empty : parseAreasPerPitch c5Text = [] := by
  decide

/-- C9.  `process_pdf` mutates nothing on the extractor object: the
state coming out of a call is the state that went in, and re-running
the extraction on the state returned by the first call yields the
identical result, for every extractor state and every document text. -/
theorem extraction_idempotent (ex : Extractor) (text : List Char) :
    (processPdf ex text).2 = ex ∧
      (processPdf ((processPdf ex text).2) text).1 = (processPdf ex text).1 :=
  ⟨rfl, rfl⟩

/-! ## Address extraction (C8) -/

/-- No surrounding whitespace: the first and last characters, when
they exist, are not whitespace. -/
def Trimmed (l : List Char) : Prop :=
  (∀ c, l.head? = some c → isWs c = false) ∧
    (∀ c, l.getLast? = some c → isWs c = false)

theorem dropWhile_head_false {p : Char → Bool} :
    ∀ {l : List Char} {c : Char}, (l.dropWhile p).head? = some c → p c = false := by
  intro l
  induction l with
  | nil => intro c h; cases h
  | cons a t ih =>
    intro c h
    rw [List.dropWhile_cons] at h
    by_cases hp : p a
    · rw [if_pos hp] at h
      exact ih h
    · rw [if_neg hp] at h
      simp only [List.head?_cons, Option.some.injEq] at h
      subst h
      exact eq_false_of_ne_true hp

theorem dropWhile_getLast? {p : Char → Bool} :
    ∀ {l : List Char}, l.dropWhile p ≠ [] → (l.dropWhile p).getLast? = l.getLast? := by
  intro l
  induction l with
  | nil => intro h; exact absurd rfl h
  | cons a t ih =>
    intro h
    rw [List.dropWhile_cons] at h ⊢
    by_cases hp : p a
    · rw [if_pos hp] at h ⊢
      have ht : t ≠ [] := by
        intro hc
        subst hc
        exact h rfl
      rw [ih h]
      cases t with
      | nil => exact absurd rfl ht
      | cons b u => rw [List.getLast?_cons_cons]
    · rw [if_neg hp]

theorem pyStrip_trimmed (l : List Char) : Trimmed (pyStrip l) := by
  unfold pyStrip
  constructor
  · intro c h
    rw [List.head?_reverse] at h
    by_cases hz : ((l.dropWhile isWs).reverse.dropWhile isWs) = []
    · rw [hz] at h
      cases h
    · rw [dropWhile_getLast? hz, List.getLast?_reverse] at h
      exact dropWhile_head_false h
  · intro c h
    rw [List.getLast?_reverse] at h
    exact dropWhile_head_false h

/-- C8.  The address extractor is total and all-or-nothing: on every
text it either reports no address (the empty dict — never an error) or
all four captured fields with surrounding whitespace removed; and on
the spec's concrete example it recovers the four expected fields,
while a text with no comma-delimited triple yields the all-absent
result. -/
theorem address_extraction_shape :
    (∀ text : List Char,
        extractAddressWith addressPat text = none ∨
          ∃ a, extractAddressWith addressPat text = some a ∧
            Trimmed a.street_address ∧ Trimmed a.city ∧
            Trimmed a.state ∧ Trimmed a.zip_code) ∧
      extractAddressWith addressPat "123 Main St, Springfield, IL 62704".data =
        some ⟨"123 Main St".data, "Springfield".data, "IL".data, "62704".data⟩ ∧
      extractAddressWith addressPat "no comma delimited triple here".data = none := by
  refine ⟨?_, by decide, by decide⟩
  intro text
  unfold extractAddressWith
  cases hs : search addressPat text with
  | none => exact Or.inl rfl
  | some m =>
    exact Or.inr ⟨_, rfl, pyStrip_trimmed _, pyStrip_trimmed _, pyStrip_trimmed _,
      pyStrip_trimmed _⟩

/-! ## Suggested waste (C6) -/

/-- C6.  For every document text whose waste-calculation section
yields the percentage tokens `10, 15, 20`, the area tokens
`100, 150, 200` and the squares tokens `1.0, 1.5, 2.0`, and whose
`Suggested` marker line is preceded by exactly one non-empty
digit-containing line (the code's row-counting rule, line 236, giving
target index 1 — the second row), the recovered waste entry is
`{percentage: 15, area: 150, squares: 1.5}`. -/
theorem suggested_waste_second_row (text wt : List Char)
    (hsec : (search wasteSectionPat text).map (fun m => m.matched) = some wt)
    (hp : wastePercentages wt = ["10".data, "15".data, "20".data])
    (ha : wasteAreas wt = ["100".data, "150".data, "200".data])
    (hsq : wasteSquares wt = ["1.0".data, "1.5".data, "2.0".data])
    (hi : suggestedIndex (splitNl wt) = some 1) :
    parseSuggestedWaste text = some ⟨15, 150, 3 / 2⟩ := by
  have h15 : pyFloat "15".data = some 15 := by decide
  have hfil : List.filter (fun c => !(c == ',')) "150".data = "150".data := by decide
  have h150 : pyFloat "150".data = some 150 := by decide
  have h32 : pyFloat "1.5".data = some (3 / 2 : ℚ) := by
    rw [show pyFloat "1.5".data = some (digitsVal "1".data + fracVal "5".data) from rfl]
    rw [show (digitsVal "1".data + fracVal "5".data : ℚ) =
      ((1 : Nat) : ℚ) + ((5 : Nat) : ℚ) / 10 ^ (1 : Nat) from rfl]
    norm_num
  unfold parseSuggestedWaste
  cases hx : search wasteSectionPat text with
  | none => rw [hx] at hsec; cases hsec
  | some m =>
    rw [hx] at hsec
    simp only [Option.map_some', Option.some.injEq] at hsec
    dsimp only
    rw [hsec]
    unfold parseWasteSection
    rw [hp, ha, hsq, hi]
    simp only [List.length_cons, List.length_nil, List.getElem?_cons_succ,
      List.getElem?_cons_zero, hfil, h15, h150, h32,
      show ((1 : Nat) < 0 + 1 + 1 + 1) = True from by norm_num, if_true]

/-- The concrete C6 document: the waste section spans the whole text
(it starts at `Waste Calculation` and has no `Additional`
terminator). -/
def c6Text : List Char :=
  ("Waste Calculation\nPercent 10% 15% 20%\nSuggested row\nArea (Sq ft) 100\n" ++
   "Area (Sq ft) 150\nArea (Sq ft) 200\nSquares * 1.0\nSquares * 1.5\nSquares * 2.0").data

/-- C6 witness: the theorem applied at the concrete document. -/
theorem suggested_waste_second_row_witness :
    ((search wasteSectionPat c6Text).map (fun m => m.matched) = some c6Text ∧
        wastePercentages c6Text = ["10".data, "15".data, "20".data] ∧
        wasteAreas c6Text = ["100".data, "150".data, "200".data] ∧
        wasteSquares c6Text = ["1.0".data, "1.5".data, "2.0".data] ∧
        suggestedIndex (splitNl c6Text) = some 1) ∧
      parseSuggestedWaste c6Text = some ⟨15, 150, 3 / 2⟩ :=
  ⟨⟨by decide, by decide, by decide, by decide, by decide⟩,
   suggested_waste_second_row c6Text c6Text (by decide) (by decide) (by decide)
     (by decide) (by decide)⟩

/-! ## `extract_measurements_from_bytes` (C10) -/

/-- The group-1 captures of the predominant-pitch pattern over a
text. -/
def predominantPitchCaptures (text : List Char) : List (List Char) :=
  (findIter predominantPitchPat text).filterMap (fun r => grpGet r.caps 1)

theorem findAllPitchOutput_shape (text : List Char) :
    ∀ r ∈ findAllPitchOutput text,
      ∃ w, r.value = .str w ∧ w ∈ predominantPitchCaptures text := by
  intro r hr
  obtain ⟨m, hm, heq⟩ := List.mem_filterMap.mp hr
  revert heq
  cases hg : grpGet m.caps 1 with
  | none => intro heq; cases heq
  | some w =>
    by_cases hw : w.isEmpty
    · simp [hw]
    · simp only [hw, if_false, Bool.false_eq_true]
      intro heq
      cases heq
      exact ⟨w, rfl, List.mem_filterMap.mpr ⟨m, hm, hg⟩⟩

theorem lookup_upsert_ne (k k2 : String) (v : MEntry) (l : List (String × MEntry))
    (h : k ≠ k2) : lookupEntry k (upsertEntry k2 v l) = lookupEntry k l := by
  have hbk : (k2 == k) = false := beq_eq_false_iff_ne.mpr (fun hc => h hc.symm)
  induction l with
  | nil => simp [upsertEntry, lookupEntry, List.find?, hbk]
  | cons p rest ih =>
    simp only [upsertEntry]
    by_cases hp : k2 == p.1
    · rw [if_pos hp]
      simp only [lookupEntry, List.find?, hbk]
      have hpk : (p.1 == k) = false := by
        simp only [beq_iff_eq] at hp
        rw [← hp]
        exact hbk
      rw [hpk]
    · rw [if_neg hp]
      simp only [lookupEntry, List.find?]
      cases hpk : (p.1 == k) with
      | true => rfl
      | false => exact ih

theorem runPatternsBytes_preserve (text : List Char) :
    ∀ (pats : List (String × RE)) (acc : List (String × MEntry)),
      (∀ e ∈ pats, e.1 ≠ "total_area" ∧
        ∃ l, findAllMeasurements e.2 text 1 (some e.1) = .ok l ∧
          ∃ o, consolidateMeasurements l = .ok o) →
      ∃ ms, runPatternsBytes pats text acc = .ok ms ∧
        lookupEntry "total_area" ms = lookupEntry "total_area" acc := by
  intro pats
  induction pats with
  | nil => intro acc _; exact ⟨acc, rfl, rfl⟩
  | cons e rest ih =>
    intro acc h
    obtain ⟨hne, l, hl, o, ho⟩ := h e (List.mem_cons_self e rest)
    have htail := fun acc2 => ih acc2 (fun e2 he2 => h e2 (List.mem_cons_of_mem e he2))
    cases l with
    | nil =>
      obtain ⟨ms, hms, hlk⟩ := htail acc
      exact ⟨ms, by simp only [runPatternsBytes, hl]; exact hms, hlk⟩
    | cons f fs =>
      cases o with
      | none =>
        obtain ⟨ms, hms, hlk⟩ := htail acc
        exact ⟨ms, by simp only [runPatternsBytes, hl, ho]; exact hms, hlk⟩
      | some c2 =>
        obtain ⟨ms, hms, hlk⟩ := htail (upsertEntry e.1 (MEntry.meas c2) acc)
        refine ⟨ms, by simp only [runPatternsBytes, hl, ho]; exact hms, ?_⟩
        rw [hlk, lookup_upsert_ne _ _ _ _ (fun hc => hne hc.symm)]

theorem tail_patterns_bytes_ok (text : List Char)
    (hpp : ∀ w1 ∈ predominantPitchCaptures text,
      ∀ w2 ∈ predominantPitchCaptures text, w1 = w2) :
    ∀ e ∈ createExtractor.patterns.tail, e.1 ≠ "total_area" ∧
      ∃ l, findAllMeasurements e.2 text 1 (some e.1) = .ok l ∧
        ∃ o, consolidateMeasurements l = .ok o := by
  have hdig : ∀ (name : String) (pat : RE), numGroups pat = 1 →
      groupBodies pat = [(1, digP)] →
      ((some name : Option String) == some "predominant_pitch") = false →
      ∃ l, findAllMeasurements pat text 1 (some name) = .ok l ∧
        ∃ o, consolidateMeasurements l = .ok o := by
    intro name pat hng hgb hname
    refine ⟨_, findAll_eq_num pat digP name text hng hgb
      (fun w hw => cleanValue_of_lang_digP hw) hname, ?_⟩
    exact consolidate_ok_of_num _ (fun r hr => (findAllNumOutput_shape pat 1 text r hr).1)
  intro e he
  simp only [createExtractor, List.tail_cons, List.mem_cons, List.not_mem_nil, or_false] at he
  rcases he with rfl | rfl | rfl | rfl | rfl | rfl | rfl | rfl | rfl | rfl
  · refine ⟨by decide, _, findAll_eq_pitch text, ?_⟩
    apply consolidate_ok_of_const
    intro m1 hm1
    cases hout : findAllPitchOutput text with
    | nil =>
      rw [hout] at hm1
      cases hm1
    | cons f fs =>
      rw [hout] at hm1
      obtain ⟨w1, hv1, hc1⟩ := findAllPitchOutput_shape text m1 (hout ▸ hm1)
      obtain ⟨w0, hv0, hc0⟩ :=
        findAllPitchOutput_shape text f (hout ▸ List.mem_cons_self f fs)
      simp only [List.headD_cons]
      rw [hv1, hv0, hpp w1 hc1 w0 hc0]
  · exact ⟨by decide, hdig "ridges" ridgesPat rfl rfl (by decide)⟩
  · exact ⟨by decide, hdig "valleys" valleysPat rfl rfl (by decide)⟩
  · exact ⟨by decide, hdig "eaves" eavesPat rfl rfl (by decide)⟩
  · exact ⟨by decide, hdig "rakes" rakesPat rfl rfl (by decide)⟩
  · exact ⟨by decide, hdig "hips" hipsPat rfl rfl (by decide)⟩
  · exact ⟨by decide, hdig "flashing" flashingPat rfl rfl (by decide)⟩
  · exact ⟨by decide, hdig "step_flashing" stepFlashingPat rfl rfl (by decide)⟩
  · exact ⟨by decide, hdig "penetrations_area" penetrationsAreaPat rfl rfl (by decide)⟩
  · exact ⟨by decide, hdig "penetrations_perimeter" penetrationsPerimeterPat rfl rfl (by decide)⟩

/-- The C10 counterexample document: no total-area phrase, but two
distinct predominant-pitch phrases. -/
def c10Text : List Char :=
  "Predominant Pitch = 4/12 and Predominant Pitch = 6/12".data

set_option maxHeartbeats 1000000 in
/-- C10 counterexample.  `extract_measurements_from_bytes` does not
always return a successful result when `total_area` is missing: on a
text with two distinct predominant-pitch matches, the consolidation of
line 400 reaches `sum()` over the two pitch strings and raises
`TypeError`, so the call fails instead of returning a record. -/
theorem extract_bytes_typeerror_counterexample :
    totalAreaCaptures c10Text = [] ∧
      (extractMeasurementsFromBytes createExtractor c10Text).1 =
        .error "TypeError: unsupported operand type(s) for +: 'int' and 'str'" := by
  exact ⟨by decide, by decide⟩

set_option maxHeartbeats 1000000 in
/-- C10 amended.  `extract_measurements_from_bytes` performs no
required-field validation: for every text with no total-area match on
which no consolidation can raise (at most one distinct
predominant-pitch capture), it returns a successful result whose
measurements mapping simply lacks the `total_area` key. -/
theorem extract_bytes_no_validation (text : List Char)
    (hta : totalAreaCaptures text = [])
    (hpp : ∀ w1 ∈ predominantPitchCaptures text,
      ∀ w2 ∈ predominantPitchCaptures text, w1 = w2) :
    ∃ ms areas, (extractMeasurementsFromBytes createExtractor text).1 = .ok (ms, areas) ∧
      lookupEntry "total_area" ms = none := by
  have hfi : findIter totalAreaPat text = [] := by
    have h2 := hta
    unfold totalAreaCaptures at h2
    exact List.map_eq_nil_iff.mp h2
  have hout0 : findAllNumOutput totalAreaPat 1 text = [] := by
    unfold findAllNumOutput
    rw [hfi]
    rfl
  have hfa0 : findAllMeasurements totalAreaPat text 1 (some "total_area") = .ok [] := by
    rw [findAll_eq_num totalAreaPat taBody "total_area" text rfl rfl
      (fun w hw => cleanValue_of_lang_taBody hw) (by decide), hout0]
  obtain ⟨ms, hms, hlook⟩ :=
    runPatternsBytes_preserve text createExtractor.patterns.tail []
      (tail_patterns_bytes_ok text hpp)
  have hrun : runPatternsBytes createExtractor.patterns text [] = .ok ms := by
    show runPatternsBytes (("total_area", totalAreaPat) :: createExtractor.patterns.tail)
      text [] = .ok ms
    simp only [runPatternsBytes, hfa0]
    exact hms
  have hlook2 : lookupEntry "total_area" ms = none := by
    rw [hlook]
    rfl
  unfold extractMeasurementsFromBytes
  dsimp only
  simp only [hrun]
  cases haddr : search createExtractor.address_pattern text with
  | none => exact ⟨ms, _, rfl, hlook2⟩
  | some m =>
    refine ⟨_, _, rfl, ?_⟩
    rw [lookup_upsert_ne _ _ _ _ (by decide), lookup_upsert_ne _ _ _ _ (by decide),
        lookup_upsert_ne _ _ _ _ (by decide), lookup_upsert_ne _ _ _ _ (by decide)]
    exact hlook2

set_option maxHeartbeats 1000000 in
/-- C10 amended witness: a document with one valleys measurement and
no total-area phrase succeeds with `total_area` absent. -/
theorem extract_bytes_no_validation_witness :
    (totalAreaCaptures "Valleys = 20 ft".data = [] ∧
        (∀ w1 ∈ predominantPitchCaptures "Valleys = 20 ft".data,
          ∀ w2 ∈ predominantPitchCaptures "Valleys = 20 ft".data, w1 = w2)) ∧
      ∃ ms areas,
        (extractMeasurementsFromBytes createExtractor "Valleys = 20 ft".data).1 =
            .ok (ms, areas) ∧
          lookupEntry "total_area" ms = none :=
  ⟨⟨by decide, by decide⟩,
   extract_bytes_no_validation "Valleys = 20 ft".data (by decide) (by decide)⟩

end EagleView
